import Mathlib

/-!
Verification of the PLDM PDR repository subsystem (blob store, change-event
codec and manager-side event handler) against its natural-language
specification.  The definitions below are a shallow embedding of the C
sources `pldm_pdr_repo.c`, `pldm_pdr_chg_event.c`,
`pldm_pdr_chg_event_handler.c` and the manager helpers of `pldm_pdr_mgr.h`:

* machine integers are `Nat` with an explicit `% 2^w` wherever C truncation
  or wrap-around matters (`uint16_t total_size`, `uint32_t` handle
  increments);
* byte buffers (`uint8_t *`) are `List Nat` whose elements are byte values;
* the fixed `index[PDR_MAX_RECORD_COUNT]` array together with its `count`
  field is a `List` whose length is `count`;
* fallible C functions returning `0 / -1` become `Option`-valued functions
  (`none` is `-1`, in which case the C code has not mutated the repository:
  every failing path in the source returns before its first write).
-/

set_option maxHeartbeats 1000000
set_option maxRecDepth 4096

/-- Serialize a 32-bit value into 4 little-endian bytes (packed struct layout). -/
def le32 (v : Nat) : List Nat :=
  [v % 256, v / 2 ^ 8 % 256, v / 2 ^ 16 % 256, v / 2 ^ 24 % 256]

/-- Serialize a 16-bit value into 2 little-endian bytes (packed struct layout). -/
def le16 (v : Nat) : List Nat :=
  [v % 256, v / 2 ^ 8 % 256]

/-- Read a 32-bit little-endian value at `off` (packed struct field access). -/
def readLE32 (blob : List Nat) (off : Nat) : Nat :=
  blob.getD off 0 + blob.getD (off + 1) 0 * 2 ^ 8 +
    blob.getD (off + 2) 0 * 2 ^ 16 + blob.getD (off + 3) 0 * 2 ^ 24

/-- Read a 16-bit little-endian value at `off` (packed struct field access). -/
def readLE16 (blob : List Nat) (off : Nat) : Nat :=
  blob.getD off 0 + blob.getD (off + 1) 0 * 2 ^ 8

/-- `memcpy(&blob[off], bytes, bytes.length)`. -/
def writeBytes (blob : List Nat) (off : Nat) (bytes : List Nat) : List Nat :=
  blob.take off ++ bytes ++ blob.drop (off + bytes.length)

/-- The 10-byte packed little-endian PLDM PDR common header `pldm_pdr_hdr_t`. -/
def pldm_pdr_hdr_bytes (record_handle pdr_header_version pdr_type
    record_change_num data_length : Nat) : List Nat :=
  le32 record_handle ++ [pdr_header_version % 256, pdr_type % 256] ++
    le16 record_change_num ++ le16 data_length

/-- `PDR_MAX_RECORD_COUNT` (pdr_repo.h). -/
def PDR_MAX_RECORD_COUNT : Nat := 64

/-- `PDR_TRANSFER_CHUNK_SIZE` (pdr_repo.h). -/
def PDR_TRANSFER_CHUNK_SIZE : Nat := 128

/-- Modelled from the spec: the tombstone bit of `pdr_index_entry_t.flags`
(`PDR_INDEX_FLAG_TOMBSTONE`); the header defining the constant is not among
the sources, only its uses, so the concrete bit position is a free choice —
every claim depends only on set/test consistency. -/
def PDR_INDEX_FLAG_TOMBSTONE : Nat := 1

/-- `pdr_index_entry_t`: per-record metadata kept outside the blob. -/
structure pdr_index_entry_t where
  record_handle : Nat
  offset : Nat
  size : Nat
  pdr_type : Nat
  flags : Nat
deriving Repr, DecidableEq, Inhabited

/-- `pdr_repo_info_t`: cached aggregates served by GetPDRRepositoryInfo. -/
structure pdr_repo_info_t where
  repository_state : Nat
  record_count : Nat
  repository_size : Nat
  largest_record_size : Nat
  update_timestamp : Nat
  oem_update_timestamp : Nat
  data_transfer_handle_timeout : Nat
deriving Repr, DecidableEq, Inhabited

/-- `pdr_repo_t`.  The C `count` field is `index.length`; the C blob pointer
plus `blob_capacity` pair is the `blob` list (buffer contents) plus
`blob_capacity`. -/
structure pdr_repo_t where
  blob : List Nat
  blob_used : Nat
  blob_capacity : Nat
  index : List pdr_index_entry_t
  info : pdr_repo_info_t
  signature : Nat
  signature_valid : Bool
  next_record_handle : Nat
deriving Repr, DecidableEq, Inhabited

/-- `pdr_index_is_tombstone` (flags test, defined next to the flag). -/
def pdr_index_is_tombstone (e : pdr_index_entry_t) : Bool :=
  e.flags &&& PDR_INDEX_FLAG_TOMBSTONE != 0

/-- `pdr_repo_init`: zero all state, state available, allocator starts at 1. -/
def pdr_repo_init : pdr_repo_t :=
  { blob := [], blob_used := 0, blob_capacity := 0, index := [],
    info := ⟨0, 0, 0, 0, 0, 0, 0⟩, signature := 0, signature_valid := false,
    next_record_handle := 1 }

/-- `pdr_repo_init_ext`: init, then bind an external blob buffer. -/
def pdr_repo_init_ext (blob : List Nat) : pdr_repo_t :=
  { pdr_repo_init with blob := blob, blob_capacity := blob.length }

/-- The C loop `for i in 0..count: if (p index[i]) return i;` — index of the
first element satisfying `p`. -/
def list_find_idx {α : Type} (p : α → Bool) : List α → Option Nat
  | [] => none
  | x :: xs => if p x then some 0 else (list_find_idx p xs).map (· + 1)

/-- `pdr_repo_find_index`: handle 0 selects the first non-tombstone entry,
otherwise the live entry with the matching handle. -/
def pdr_repo_find_index (repo : pdr_repo_t) (record_handle : Nat) : Option Nat :=
  if record_handle = 0 then
    list_find_idx (fun e => !pdr_index_is_tombstone e) repo.index
  else
    list_find_idx
      (fun e => e.record_handle == record_handle && !pdr_index_is_tombstone e)
      repo.index

/-- The non-tombstone entries of the index, in index order. -/
def pdr_repo_live_entries (repo : pdr_repo_t) : List pdr_index_entry_t :=
  repo.index.filter (fun e => !pdr_index_is_tombstone e)

/-- `pdr_repo_invalidate_signature` (static inline in the repo header). -/
def pdr_repo_invalidate_signature (repo : pdr_repo_t) : pdr_repo_t :=
  { repo with signature_valid := false }

/-- `pdr_repo_update_info`: recompute the cached aggregates over the
non-tombstone entries and invalidate the signature. -/
def pdr_repo_update_info (repo : pdr_repo_t) : pdr_repo_t :=
  let live := pdr_repo_live_entries repo
  pdr_repo_invalidate_signature
    { repo with info :=
      { repo.info with
        record_count := live.length,
        repository_size := (live.map (fun e => e.size)).sum,
        largest_record_size := live.foldl (fun m e => max m e.size) 0 } }

/-- `pdr_repo_index_record`: zero-copy registration of a record already in
the blob.  `total_size` is a C `uint16_t`, hence the `% 2^16`; the handle
advance is 32-bit arithmetic. -/
def pdr_repo_index_record (repo : pdr_repo_t) (offset : Nat) : Option pdr_repo_t :=
  if repo.index.length ≥ PDR_MAX_RECORD_COUNT then none
  else
    let record_handle := readLE32 repo.blob offset
    let pdr_type := repo.blob.getD (offset + 5) 0
    let data_length := readLE16 repo.blob (offset + 8)
    let total_size := (10 + data_length) % 2 ^ 16
    if offset + total_size > repo.blob_capacity then none
    else
      some { repo with
        index := repo.index ++ [⟨record_handle, offset, total_size, pdr_type, 0⟩],
        next_record_handle :=
          if record_handle ≥ repo.next_record_handle then
            (record_handle + 1) % 2 ^ 32
          else repo.next_record_handle }

/-- `pdr_repo_add_record`.  The C computes
`uint16_t total_size = sizeof(pldm_pdr_hdr_t) + data_len;` so the record
size is truncated to 16 bits; on success it returns the new state and the
assigned handle.  `data_len` is the separate C length argument; `data` is
the caller buffer contents. -/
def pdr_repo_add_record (repo : pdr_repo_t) (pdr_type : Nat) (data : List Nat)
    (data_len : Nat) : Option (pdr_repo_t × Nat) :=
  let total_size := (10 + data_len) % 2 ^ 16
  if repo.index.length ≥ PDR_MAX_RECORD_COUNT then none
  else if repo.blob_used + total_size > repo.blob_capacity then none
  else
    let handle := repo.next_record_handle
    let hdr := pldm_pdr_hdr_bytes handle 1 pdr_type 0 data_len
    let offset := repo.blob_used
    let blob := writeBytes (writeBytes repo.blob offset hdr) (offset + 10)
      (data.take data_len)
    some (pdr_repo_update_info
      { repo with
        blob := blob,
        index := repo.index ++ [⟨handle, offset, total_size, pdr_type, 0⟩],
        blob_used := repo.blob_used + total_size,
        next_record_handle := (handle + 1) % 2 ^ 32 }, handle)

/-- `pdr_repo_remove_record`: O(1) tombstone of the resolved live entry;
the blob bytes stay in place. -/
def pdr_repo_remove_record (repo : pdr_repo_t) (record_handle : Nat) :
    Option pdr_repo_t :=
  match pdr_repo_find_index repo record_handle with
  | none => none
  | some idx =>
    let e := repo.index.getD idx default
    some (pdr_repo_update_info
      { repo with index :=
        repo.index.set idx { e with flags := e.flags ||| PDR_INDEX_FLAG_TOMBSTONE } })

/-- `crc32_byte`: one byte of the reflected CRC-32; `-(crc & 1)` in
`uint32_t` arithmetic is `(2^32 - (crc &&& 1)) % 2^32`. -/
def crc32_byte (crc byte : Nat) : Nat :=
  (List.range 8).foldl
    (fun c _ => (c >>> 1) ^^^ (0xEDB88320 &&& ((2 ^ 32 - (c &&& 1)) % 2 ^ 32)))
    (crc ^^^ byte)

/-- `crc32_buf` over a byte list. -/
def crc32_buf (buf : List Nat) : Nat :=
  (buf.foldl crc32_byte 0xFFFFFFFF) ^^^ 0xFFFFFFFF

/-- `pdr_repo_get_signature`: lazily recompute the CRC over
`blob[0..blob_used)` when the cache is invalid; returns the (possibly
updated) state together with the returned value. -/
def pdr_repo_get_signature (repo : pdr_repo_t) : pdr_repo_t × Nat :=
  if repo.signature_valid then (repo, repo.signature)
  else
    let s := crc32_buf (repo.blob.take repo.blob_used)
    ({ repo with signature := s, signature_valid := true }, s)

/-- The outputs of `pdr_repo_get_pdr` (the C out-parameters; `data` is the
borrowed blob slice the returned pointer designates). -/
structure pdr_get_pdr_out where
  next_record_handle : Nat
  next_data_transfer_handle : Nat
  transfer_flag : Nat
  data : List Nat
  data_len : Nat
deriving Repr, DecidableEq, Inhabited

/-- The next-record scan of `pdr_repo_get_pdr`: handle of the first
non-tombstone entry after position `idx`, or 0 if none. -/
def pdr_repo_next_live_handle (repo : pdr_repo_t) (idx : Nat) : Nat :=
  match (repo.index.drop (idx + 1)).find? (fun e => !pdr_index_is_tombstone e) with
  | some e => e.record_handle
  | none => 0

/-- `pdr_repo_get_pdr` (GetPDR, 0x51): multi-chunk read. -/
def pdr_repo_get_pdr (repo : pdr_repo_t) (record_handle data_transfer_handle : Nat) :
    Option pdr_get_pdr_out :=
  match pdr_repo_find_index repo record_handle with
  | none => none
  | some idx =>
    let entry := repo.index.getD idx default
    if data_transfer_handle ≥ entry.size then none
    else
      let remaining := entry.size - data_transfer_handle
      let chunk := if remaining > PDR_TRANSFER_CHUNK_SIZE then
        PDR_TRANSFER_CHUNK_SIZE else remaining
      let is_first := data_transfer_handle = 0
      let is_last := data_transfer_handle + chunk ≥ entry.size
      some
        { next_record_handle := pdr_repo_next_live_handle repo idx,
          next_data_transfer_handle :=
            if is_last then 0 else data_transfer_handle + chunk,
          transfer_flag :=
            if is_first ∧ is_last then 5
            else if is_first then 0
            else if is_last then 4
            else 1,
          data := (repo.blob.drop (entry.offset + data_transfer_handle)).take chunk,
          data_len := chunk }

/-- The wipe step of `pdr_repo_run_init_agent`: mark updating, reset
`blob_used`, `count`, `next_record_handle`, signature validity, and zero the
blob. -/
def pdr_repo_wipe (repo : pdr_repo_t) : pdr_repo_t :=
  { repo with
    info := { repo.info with repository_state := 1 },
    blob_used := 0,
    index := [],
    next_record_handle := 1,
    signature_valid := false,
    blob := List.replicate repo.blob_capacity 0 }

/-- `pdr_repo_run_init_agent` with a (non-null) populate callback: wipe,
let the callback repopulate, mark available, recompute info. -/
def pdr_repo_run_init_agent (repo : pdr_repo_t)
    (init_callback : pdr_repo_t → pdr_repo_t) : pdr_repo_t :=
  let repo := init_callback (pdr_repo_wipe repo)
  pdr_repo_update_info { repo with info := { repo.info with repository_state := 0 } }

/-- `PDR_MGR_HANDLE_RANGE_SHIFT` (pldm_pdr_mgr.h). -/
def PDR_MGR_HANDLE_RANGE_SHIFT : Nat := 16

/-- `PDR_MGR_HANDLE_SUB_MASK` (pldm_pdr_mgr.h). -/
def PDR_MGR_HANDLE_SUB_MASK : Nat := 0xFFFF

/-- `pdr_mgr_remap_handle`: `((terminus_idx + 1) << 16) | (seq & 0xFFFF)`. -/
def pdr_mgr_remap_handle (terminus_idx seq : Nat) : Nat :=
  ((terminus_idx % 256 + 1) <<< PDR_MGR_HANDLE_RANGE_SHIFT) |||
    (seq &&& PDR_MGR_HANDLE_SUB_MASK)

/-- `pdr_mgr_add_remapped_pdr` acting on the consolidated `pdr_repo_t`:
save the allocator, force it to `remapped_handle`, `pdr_repo_add_record`,
restore the allocator; the `Bool` is the success of the inner add. -/
def pdr_mgr_add_remapped_pdr (repo : pdr_repo_t) (remapped_handle pdr_type : Nat)
    (data : List Nat) (data_len : Nat) : pdr_repo_t × Bool :=
  let saved := repo.next_record_handle
  let forced := { repo with next_record_handle := remapped_handle }
  match pdr_repo_add_record forced pdr_type data data_len with
  | some (r, _) => ({ r with next_record_handle := saved }, true)
  | none => ({ forced with next_record_handle := saved }, false)

/-- Operations a RunInitAgent populate callback may perform on the repo. -/
inductive pdr_cb_op where
  | add (pdr_type : Nat) (data : List Nat) (data_len : Nat)
  | index (offset : Nat)
  | remove (record_handle : Nat)
deriving Repr, DecidableEq

/-- Execute one callback operation; a failed operation leaves the state
unchanged (every failing path of the C functions returns before writing). -/
def pdr_cb_exec (s : pdr_repo_t) (op : pdr_cb_op) : pdr_repo_t :=
  match op with
  | .add t d dl =>
    match pdr_repo_add_record s t d dl with
    | some (r, _) => r
    | none => s
  | .index off => (pdr_repo_index_record s off).getD s
  | .remove h => (pdr_repo_remove_record s h).getD s

/-- The repository operations of the specification: init, initExternal,
addRecord, indexRecord, removeRecord, runInitAgent (with its populate
callback given as a list of callback operations). -/
inductive pdr_repo_op where
  | init
  | initExt (buf : List Nat)
  | add (pdr_type : Nat) (data : List Nat) (data_len : Nat)
  | index (offset : Nat)
  | remove (record_handle : Nat)
  | runInit (cb : List pdr_cb_op)
deriving Repr, DecidableEq

/-- Execute one repository operation (add/index/remove act exactly as the
corresponding callback operation). -/
def pdr_repo_exec (s : pdr_repo_t) (op : pdr_repo_op) : pdr_repo_t :=
  match op with
  | .init => pdr_repo_init
  | .initExt buf => pdr_repo_init_ext buf
  | .add t d dl => pdr_cb_exec s (.add t d dl)
  | .index off => pdr_cb_exec s (.index off)
  | .remove h => pdr_cb_exec s (.remove h)
  | .runInit cb => pdr_repo_run_init_agent s (fun r => cb.foldl pdr_cb_exec r)

/-- Execute a sequence of repository operations. -/
def pdr_repo_exec_ops (s : pdr_repo_t) (ops : List pdr_repo_op) : pdr_repo_t :=
  ops.foldl pdr_repo_exec s

/-- `PDR_CHG_EVENT_MAX_ENTRIES` (pldm_pdr_chg_event.h). -/
def PDR_CHG_EVENT_MAX_ENTRIES : Nat := 16

/-- `PDR_CHG_EVENT_MAX_RECORDS` (pldm_pdr_chg_event.h). -/
def PDR_CHG_EVENT_MAX_RECORDS : Nat := 4

/-- `pdr_chg_event_format_t` values. -/
def PDR_CHG_FORMAT_REFRESH_ENTIRE : Nat := 0

/-- `formatIsPDRTypes`. -/
def PDR_CHG_FORMAT_PDR_TYPES : Nat := 1

/-- `formatIsPDRHandles`. -/
def PDR_CHG_FORMAT_PDR_HANDLES : Nat := 2

/-- `pdr_chg_event_op_t` values. -/
def PDR_CHG_OP_REFRESH_ALL : Nat := 0

/-- `recordsDeleted`. -/
def PDR_CHG_OP_RECORDS_DELETED : Nat := 1

/-- `recordsAdded`. -/
def PDR_CHG_OP_RECORDS_ADDED : Nat := 2

/-- `recordsModified`. -/
def PDR_CHG_OP_RECORDS_MODIFIED : Nat := 3

/-- `pdr_chg_record_t`: the C `num_change_entries` field is
`change_entries.length`. -/
structure pdr_chg_record_t where
  event_data_operation : Nat
  change_entries : List Nat
deriving Repr, DecidableEq, Inhabited

/-- `pdr_chg_event_t`: the C `num_change_records` field is
`change_records.length`. -/
structure pdr_chg_event_t where
  event_data_format : Nat
  change_records : List pdr_chg_record_t
deriving Repr, DecidableEq, Inhabited

/-- The record loop of `pdr_chg_event_validate` (V2, operation range, V4
ordering against `last_op`, V5 entry bound). -/
def pdr_chg_validate_records (format last_op : Nat) :
    List pdr_chg_record_t → Bool
  | [] => true
  | rec :: rest =>
    if format = PDR_CHG_FORMAT_PDR_HANDLES ∧
        rec.event_data_operation = PDR_CHG_OP_REFRESH_ALL then false
    else if rec.event_data_operation > PDR_CHG_OP_RECORDS_MODIFIED then false
    else if rec.event_data_operation < last_op then false
    else if rec.change_entries.length > PDR_CHG_EVENT_MAX_ENTRIES then false
    else pdr_chg_validate_records format rec.event_data_operation rest

/-- `pdr_chg_event_validate` (V1–V5). -/
def pdr_chg_event_validate (event : pdr_chg_event_t) : Bool :=
  if event.event_data_format = PDR_CHG_FORMAT_REFRESH_ENTIRE then
    event.change_records.length == 0
  else if event.event_data_format ≠ PDR_CHG_FORMAT_PDR_TYPES ∧
      event.event_data_format ≠ PDR_CHG_FORMAT_PDR_HANDLES then false
  else if event.change_records.length > PDR_CHG_EVENT_MAX_RECORDS then false
  else pdr_chg_validate_records event.event_data_format 0 event.change_records

/-- The entry loop of `pdr_chg_event_encode`: bounds-checked append of the
4 little-endian bytes of each entry; returns the bytes and the final
offset. -/
def pdr_chg_encode_entries (buf_size : Nat) (offset : Nat) :
    List Nat → Option (List Nat × Nat)
  | [] => some ([], offset)
  | v :: rest =>
    if offset + 4 > buf_size then none
    else
      match pdr_chg_encode_entries buf_size (offset + 4) rest with
      | none => none
      | some (bs, o) => some (le32 v ++ bs, o)

/-- The record loop of `pdr_chg_event_encode`: bounds-checked
`[operation][numEntries]` then the entries. -/
def pdr_chg_encode_records (buf_size : Nat) (offset : Nat) :
    List pdr_chg_record_t → Option (List Nat × Nat)
  | [] => some ([], offset)
  | rec :: rest =>
    if offset + 2 > buf_size then none
    else
      match pdr_chg_encode_entries buf_size (offset + 2) rec.change_entries with
      | none => none
      | some (ebs, o1) =>
        match pdr_chg_encode_records buf_size o1 rest with
        | none => none
        | some (rbs, o2) =>
          some (rec.event_data_operation :: rec.change_entries.length :: ebs ++ rbs, o2)

/-- `pdr_chg_event_encode`: validate, then serialize
`[format][numRecords]` and the change records; returns the wire bytes and
the encoded length. -/
def pdr_chg_event_encode (event : pdr_chg_event_t) (buf_size : Nat) :
    Option (List Nat × Nat) :=
  if pdr_chg_event_validate event = false then none
  else if 0 + 2 > buf_size then none
  else
    match pdr_chg_encode_records buf_size 2 event.change_records with
    | none => none
    | some (bs, o) =>
      some (event.event_data_format :: event.change_records.length :: bs, o)

/-- The 4-byte little-endian read of the decoder
(`buf[o] | buf[o+1]<<8 | buf[o+2]<<16 | buf[o+3]<<24`). -/
def pdr_chg_read_u32 (buf : List Nat) : Nat :=
  buf.getD 0 0 ||| (buf.getD 1 0 <<< 8) ||| (buf.getD 2 0 <<< 16) |||
    (buf.getD 3 0 <<< 24)

/-- The entry loop of `pdr_chg_event_decode` (the bounds were checked up
front, so the reads are unconditional). -/
def pdr_chg_decode_entries : Nat → List Nat → List Nat × List Nat
  | 0, buf => ([], buf)
  | n + 1, buf =>
    let v := pdr_chg_read_u32 buf
    let (vs, rest) := pdr_chg_decode_entries n (buf.drop 4)
    (v :: vs, rest)

/-- The record loop of `pdr_chg_event_decode`: read
`[operation][numEntries]`, check the entry bound and the remaining length,
then read the entries. -/
def pdr_chg_decode_records : Nat → List Nat → Option (List pdr_chg_record_t × List Nat)
  | 0, buf => some ([], buf)
  | n + 1, buf =>
    if buf.length < 2 then none
    else
      let op := buf.getD 0 0
      let ne := buf.getD 1 0
      if ne > PDR_CHG_EVENT_MAX_ENTRIES then none
      else if buf.length - 2 < ne * 4 then none
      else
        let (vs, rest) := pdr_chg_decode_entries ne (buf.drop 2)
        match pdr_chg_decode_records n rest with
        | none => none
        | some (rs, rest2) => some (⟨op, vs⟩ :: rs, rest2)

/-- `pdr_chg_event_decode`: bounds-safe parse of the wire format, then
validation of the populated event. -/
def pdr_chg_event_decode (buf : List Nat) : Option pdr_chg_event_t :=
  if buf.length < 2 then none
  else
    let format := buf.getD 0 0
    let n := buf.getD 1 0
    if format = PDR_CHG_FORMAT_REFRESH_ENTIRE then
      if n = 0 then some ⟨format, []⟩ else none
    else if n > PDR_CHG_EVENT_MAX_RECORDS then none
    else
      match pdr_chg_decode_records n (buf.drop 2) with
      | none => none
      | some (rs, _) =>
        if pdr_chg_event_validate ⟨format, rs⟩ then some ⟨format, rs⟩ else none

/-- `calc_encoded_size`: `2 + Σ (2 + 4·numEntries)` over the change
records. -/
def calc_encoded_size (event : pdr_chg_event_t) : Nat :=
  event.change_records.foldl
    (fun size r => size + 2 + r.change_entries.length * 4) 2

/-- `pdr_chg_tracker_t`: three preconfigured pending change records plus
the `has_changes` flag. -/
structure pdr_chg_tracker_t where
  deletes : pdr_chg_record_t
  adds : pdr_chg_record_t
  modifies : pdr_chg_record_t
  has_changes : Bool
deriving Repr, DecidableEq, Inhabited

/-- `pdr_chg_tracker_init`: zero state with the three operations
preconfigured. -/
def pdr_chg_tracker_init : pdr_chg_tracker_t :=
  { deletes := ⟨PDR_CHG_OP_RECORDS_DELETED, []⟩,
    adds := ⟨PDR_CHG_OP_RECORDS_ADDED, []⟩,
    modifies := ⟨PDR_CHG_OP_RECORDS_MODIFIED, []⟩,
    has_changes := false }

/-- `pdr_chg_tracker_record_add`: append to the pending adds, fail when the
record already holds 16 entries; the `Bool` is the return code. -/
def pdr_chg_tracker_record_add (t : pdr_chg_tracker_t) (entry : Nat) :
    pdr_chg_tracker_t × Bool :=
  if t.adds.change_entries.length ≥ PDR_CHG_EVENT_MAX_ENTRIES then (t, false)
  else
    ({ t with
      adds := ⟨t.adds.event_data_operation, t.adds.change_entries ++ [entry]⟩,
      has_changes := true }, true)

/-- `pdr_chg_tracker_record_delete`. -/
def pdr_chg_tracker_record_delete (t : pdr_chg_tracker_t) (entry : Nat) :
    pdr_chg_tracker_t × Bool :=
  if t.deletes.change_entries.length ≥ PDR_CHG_EVENT_MAX_ENTRIES then (t, false)
  else
    ({ t with
      deletes := ⟨t.deletes.event_data_operation, t.deletes.change_entries ++ [entry]⟩,
      has_changes := true }, true)

/-- `pdr_chg_tracker_record_modify`. -/
def pdr_chg_tracker_record_modify (t : pdr_chg_tracker_t) (entry : Nat) :
    pdr_chg_tracker_t × Bool :=
  if t.modifies.change_entries.length ≥ PDR_CHG_EVENT_MAX_ENTRIES then (t, false)
  else
    ({ t with
      modifies := ⟨t.modifies.event_data_operation, t.modifies.change_entries ++ [entry]⟩,
      has_changes := true }, true)

/-- One compose step of `pdr_chg_tracker_build_event`: append the pending
record when non-empty, `none` is the `goto fallback` on the
`PDR_CHG_EVENT_MAX_RECORDS` check. -/
def pdr_chg_compose_step (recs : List pdr_chg_record_t) (r : pdr_chg_record_t) :
    Option (List pdr_chg_record_t) :=
  if r.change_entries.length > 0 then
    if recs.length ≥ PDR_CHG_EVENT_MAX_RECORDS then none
    else some (recs ++ [r])
  else some recs

/-- `pdr_chg_tracker_build_event`: refresh-entire when nothing is pending,
else compose deletes → adds → modifies and fall back to refresh-entire when
the encoded size exceeds a non-zero `max_msg_size`. -/
def pdr_chg_tracker_build_event (t : pdr_chg_tracker_t)
    (format max_msg_size : Nat) : pdr_chg_event_t :=
  if t.has_changes = false then ⟨PDR_CHG_FORMAT_REFRESH_ENTIRE, []⟩
  else
    match ((pdr_chg_compose_step [] t.deletes).bind
        (fun rs => pdr_chg_compose_step rs t.adds)).bind
        (fun rs => pdr_chg_compose_step rs t.modifies) with
    | none => ⟨PDR_CHG_FORMAT_REFRESH_ENTIRE, []⟩
    | some recs =>
      let ev : pdr_chg_event_t := ⟨format, recs⟩
      if max_msg_size > 0 ∧ calc_encoded_size ev > max_msg_size then
        ⟨PDR_CHG_FORMAT_REFRESH_ENTIRE, []⟩
      else ev

/-- The change-tracker operations (terminus side). -/
inductive pdr_chg_trk_op where
  | addE (entry : Nat)
  | delE (entry : Nat)
  | modE (entry : Nat)
  | clear
deriving Repr, DecidableEq

/-- Execute one tracker operation (`pdr_chg_tracker_clear` re-inits). -/
def pdr_chg_trk_exec (t : pdr_chg_tracker_t) (op : pdr_chg_trk_op) :
    pdr_chg_tracker_t :=
  match op with
  | .addE e => (pdr_chg_tracker_record_add t e).1
  | .delE e => (pdr_chg_tracker_record_delete t e).1
  | .modE e => (pdr_chg_tracker_record_modify t e).1
  | .clear => pdr_chg_tracker_init

/-- Tracker state reached from `pdr_chg_tracker_init` by a sequence of
tracker operations. -/
def pdr_chg_trk_exec_ops (ops : List pdr_chg_trk_op) : pdr_chg_tracker_t :=
  ops.foldl pdr_chg_trk_exec pdr_chg_tracker_init

/-- The environment of `pdr_chg_event_handle` that lives outside the codec:
whether `pdr_mgr_find_terminus(eid)` succeeds, the return code of each
per-record dispatch (`handle_deletes` / `handle_adds` / `handle_modifies`,
which depend on the integrator transport), and the result of
`pdr_mgr_sync_terminus(eid)`.  Return codes are `Int` as in C. -/
structure pdr_chg_handler_env where
  term_found : Bool
  delete_rc : Nat → Int
  add_rc : Nat → Int
  modify_rc : Nat → Int
  sync_rc : Int

/-- The `switch (rec->event_data_operation)` dispatch of
`pdr_chg_event_handle` for the change record at position `i`. -/
def pdr_chg_dispatch_rc (env : pdr_chg_handler_env) (i : Nat) (op : Nat) : Int :=
  if op = PDR_CHG_OP_RECORDS_DELETED then env.delete_rc i
  else if op = PDR_CHG_OP_RECORDS_ADDED then env.add_rc i
  else if op = PDR_CHG_OP_RECORDS_MODIFIED then env.modify_rc i
  else -1

/-- The per-record loop of `pdr_chg_event_handle`: on the first non-zero
dispatch return code, fall back to `pdr_mgr_sync_terminus` and return its
result. -/
def pdr_chg_apply_records (env : pdr_chg_handler_env) :
    Nat → List pdr_chg_record_t → Int
  | _, [] => 0
  | i, rec :: rest =>
    if pdr_chg_dispatch_rc env i rec.event_data_operation ≠ 0 then env.sync_rc
    else pdr_chg_apply_records env (i + 1) rest

/-- `pdr_chg_event_handle`: decode (−1 on failure), full re-sync for
refresh-entire and type-based events, unknown-eid failure, then the
incremental per-record application with sync fallback. -/
def pdr_chg_event_handle (env : pdr_chg_handler_env) (event_data : List Nat) : Int :=
  match pdr_chg_event_decode event_data with
  | none => -1
  | some event =>
    if event.event_data_format = PDR_CHG_FORMAT_REFRESH_ENTIRE ∨
        event.event_data_format = PDR_CHG_FORMAT_PDR_TYPES then env.sync_rc
    else if env.term_found = false then -1
    else pdr_chg_apply_records env 0 event.change_records

/-! ## Basic structural lemmas -/

theorem update_info_index (s : pdr_repo_t) :
    (pdr_repo_update_info s).index = s.index := rfl

theorem update_info_next (s : pdr_repo_t) :
    (pdr_repo_update_info s).next_record_handle = s.next_record_handle := rfl

theorem update_info_sig_valid (s : pdr_repo_t) :
    (pdr_repo_update_info s).signature_valid = false := rfl

theorem remove_record_shape (repo r₂ : pdr_repo_t) (h : Nat)
    (hrem : pdr_repo_remove_record repo h = some r₂) :
    r₂.blob = repo.blob ∧ r₂.blob_used = repo.blob_used ∧
      r₂.signature_valid = false := by
  unfold pdr_repo_remove_record at hrem
  cases hfi : pdr_repo_find_index repo h with
  | none => rw [hfi] at hrem; exact absurd hrem (by simp)
  | some idx =>
    rw [hfi] at hrem
    simp only [Option.some.injEq] at hrem
    subst hrem
    exact ⟨rfl, rfl, rfl⟩

/-! ## C1 — tombstone removal and the repository signature -/

/-- The S3 repository: empty repository (default-capacity buffer modelled
with a 32-byte zero blob), two records added with one-byte bodies 0x01 and
0x02. -/
def s3_repo : pdr_repo_t :=
  ((pdr_repo_add_record
    ((pdr_repo_add_record (pdr_repo_init_ext (List.replicate 32 0)) 1 [1] 1).getD
      default).1 1 [2] 1).getD default).1

/-- The S3 repository after `s0 = getSignature()` and `removeRecord(1)`. -/
def s3_removed : pdr_repo_t :=
  (pdr_repo_remove_record (pdr_repo_get_signature s3_repo).1 1).getD default

/-- C1 counterexample: in the S3 scenario the `getSignature()` call after
`removeRecord(1)` returns a value EQUAL to `s0` — removal tombstones the
index entry but leaves `blob[0..blob_used)` untouched, so the recomputed
CRC32 is unchanged (the claim asserts the values differ). -/
theorem s3_signature_unchanged_counterexample :
    pdr_repo_remove_record (pdr_repo_get_signature s3_repo).1 1 = some s3_removed ∧
    s3_removed.info.record_count = 1 ∧
    (pdr_repo_get_signature s3_removed).2 = (pdr_repo_get_signature s3_repo).2 := by
  decide

/-- C1 amended: after `getSignature()` on a repository whose signature cache
is invalid (as in S3, where the adds invalidated it) and a successful
`removeRecord`, the signature cache is again invalidated — the next
`getSignature()` recomputes the CRC — but the recomputed value equals `s0`,
because tombstoning changes neither the blob bytes nor `blob_used`. -/
theorem remove_then_get_signature_returns_same_value
    (repo r₂ : pdr_repo_t) (h : Nat)
    (hsig : repo.signature_valid = false)
    (hrem : pdr_repo_remove_record (pdr_repo_get_signature repo).1 h = some r₂) :
    r₂.signature_valid = false ∧
      (pdr_repo_get_signature r₂).2 = (pdr_repo_get_signature repo).2 := by
  obtain ⟨hb, hu, hv⟩ := remove_record_shape _ r₂ h hrem
  have hb2 : (pdr_repo_get_signature repo).1.blob = repo.blob := by
    simp [pdr_repo_get_signature, hsig]
  have hu2 : (pdr_repo_get_signature repo).1.blob_used = repo.blob_used := by
    simp [pdr_repo_get_signature, hsig]
  refine ⟨hv, ?_⟩
  simp [pdr_repo_get_signature, hsig, hv, hb, hu, hb2, hu2]

/-- C1 witness: the amended theorem applied to the concrete S3 scenario. -/
theorem remove_then_get_signature_witness :
    (s3_repo.signature_valid = false ∧
      pdr_repo_remove_record (pdr_repo_get_signature s3_repo).1 1 = some s3_removed) ∧
    (s3_removed.signature_valid = false ∧
      (pdr_repo_get_signature s3_removed).2 = (pdr_repo_get_signature s3_repo).2) :=
  ⟨⟨by decide, by decide⟩,
    remove_then_get_signature_returns_same_value s3_repo s3_removed 1 (by decide)
      (by decide)⟩

/-! ## C2 — addRecord failure condition -/

/-- C2 counterexample: with `data_len = 65535` the C expression
`uint16_t total_size = sizeof(pldm_pdr_hdr_t) + data_len` wraps to 9, so a
call with `blob_used + 10 + len` far beyond the capacity is ACCEPTED (the
claim says every such call is rejected). -/
theorem add_record_oversized_len_accepted_counterexample :
    (pdr_repo_init_ext (List.replicate 16 0)).blob_used + 10 + 65535 >
      (pdr_repo_init_ext (List.replicate 16 0)).blob_capacity ∧
    (pdr_repo_init_ext (List.replicate 16 0)).index.length <
      PDR_MAX_RECORD_COUNT ∧
    (pdr_repo_add_record (pdr_repo_init_ext (List.replicate 16 0)) 1 [] 65535).isSome
      = true := by
  decide

/-- C2 amended: `addRecord` fails exactly when the index holds the maximum
64 records or `blob_used + ((10 + len) mod 2^16) > capacity` — the record
size is computed in 16-bit arithmetic, so for `len ≤ 65525` this is the
claimed condition `blob_used + 10 + len > capacity`, while calls with
`len ≥ 65526` wrap and can be accepted. -/
theorem add_record_rejects_iff_full_or_wrapped_nospace
    (repo : pdr_repo_t) (pdr_type : Nat) (data : List Nat) (data_len : Nat) :
    pdr_repo_add_record repo pdr_type data data_len = none ↔
      repo.index.length ≥ PDR_MAX_RECORD_COUNT ∨
        repo.blob_used + (10 + data_len) % 2 ^ 16 > repo.blob_capacity := by
  by_cases h1 : repo.index.length ≥ PDR_MAX_RECORD_COUNT
  · simp [pdr_repo_add_record, h1]
  · by_cases h2 : repo.blob_used + (10 + data_len) % 2 ^ 16 > repo.blob_capacity
    · simp [pdr_repo_add_record, h1, h2]
    · simp [pdr_repo_add_record, h1, h2]

/-! ## C10 — removeRecord with the handle-0 wildcard -/

/-- `index[idx].flags |= PDR_INDEX_FLAG_TOMBSTONE` applied to one entry. -/
def tombstoned (e : pdr_index_entry_t) : pdr_index_entry_t :=
  { e with flags := e.flags ||| PDR_INDEX_FLAG_TOMBSTONE }

theorem list_find_idx_spec {α : Type} [Inhabited α] (p : α → Bool) :
    ∀ l : List α, l.any p = true →
      (list_find_idx p l).isSome = true ∧
      (l.take ((list_find_idx p l).getD 0)).all (fun x => !p x) = true ∧
      p (l.getD ((list_find_idx p l).getD 0) default) = true := by
  intro l
  induction l with
  | nil => intro h; simp at h
  | cons x xs ih =>
    intro hany
    by_cases hx : p x
    · simp [list_find_idx, hx]
    · have hxs : xs.any p = true := by
        simp only [List.any_cons, hx, Bool.false_or] at hany
        exact hany
      obtain ⟨h1, h2, h3⟩ := ih hxs
      cases hfi : list_find_idx p xs with
      | none => rw [hfi] at h1; simp at h1
      | some j =>
        rw [hfi] at h2 h3
        have hfind : list_find_idx p (x :: xs) = some (j + 1) := by
          simp [list_find_idx, hx, hfi]
        rw [hfind]
        refine ⟨rfl, ?_, ?_⟩
        · simp only [Option.getD_some, List.take_succ_cons, List.all_cons,
            Bool.and_eq_true]
          exact ⟨by simp [hx], by simpa using h2⟩
        · simpa using h3

/-- C10 confirmed: on a repository with at least one live record,
`removeRecord(0)` resolves the wildcard through the same lookup used by
reads — selecting the first non-tombstone entry in index order — and
succeeds, tombstoning exactly that entry. -/
theorem remove_record_zero_tombstones_first_live (repo : pdr_repo_t)
    (hlive : repo.index.any (fun e => !pdr_index_is_tombstone e) = true) :
    ((repo.index.take
        ((list_find_idx (fun e => !pdr_index_is_tombstone e) repo.index).getD 0)).all
      (fun e => pdr_index_is_tombstone e) = true) ∧
    pdr_index_is_tombstone (repo.index.getD
      ((list_find_idx (fun e => !pdr_index_is_tombstone e) repo.index).getD 0)
      default) = false ∧
    pdr_repo_remove_record repo 0 =
      some (pdr_repo_update_info { repo with index :=
        (repo.index.set
          ((list_find_idx (fun e => !pdr_index_is_tombstone e) repo.index).getD 0)
          (tombstoned (repo.index.getD
            ((list_find_idx (fun e => !pdr_index_is_tombstone e) repo.index).getD 0)
            default))) }) := by
  obtain ⟨h1, h2, h3⟩ :=
    list_find_idx_spec (fun e => !pdr_index_is_tombstone e) repo.index hlive
  cases hfi : list_find_idx (fun e => !pdr_index_is_tombstone e) repo.index with
  | none => rw [hfi] at h1; simp at h1
  | some i =>
    rw [hfi] at h2 h3
    refine ⟨?_, ?_, ?_⟩
    · simpa using h2
    · simpa using h3
    · unfold pdr_repo_remove_record pdr_repo_find_index
      rw [if_pos rfl, hfi]
      rfl

/-- A concrete repository for the C10 witness: the entry for handle 1 is
tombstoned, the entry for handle 2 is live. -/
def c10_repo : pdr_repo_t :=
  { blob := List.replicate 30 0, blob_used := 22, blob_capacity := 30,
    index := [⟨1, 0, 11, 1, 1⟩, ⟨2, 11, 11, 1, 0⟩],
    info := ⟨0, 1, 11, 11, 0, 0, 0⟩, signature := 0, signature_valid := false,
    next_record_handle := 3 }

/-- C10 witness: the theorem applied to `c10_repo`, where the first live
entry sits behind a tombstone. -/
theorem remove_record_zero_wildcard_witness :
    (c10_repo.index.any (fun e => !pdr_index_is_tombstone e) = true) ∧
    (((c10_repo.index.take
        ((list_find_idx (fun e => !pdr_index_is_tombstone e) c10_repo.index).getD 0)).all
      (fun e => pdr_index_is_tombstone e) = true) ∧
    pdr_index_is_tombstone (c10_repo.index.getD
      ((list_find_idx (fun e => !pdr_index_is_tombstone e) c10_repo.index).getD 0)
      default) = false ∧
    pdr_repo_remove_record c10_repo 0 =
      some (pdr_repo_update_info { c10_repo with index :=
        (c10_repo.index.set
          ((list_find_idx (fun e => !pdr_index_is_tombstone e) c10_repo.index).getD 0)
          (tombstoned (c10_repo.index.getD
            ((list_find_idx (fun e => !pdr_index_is_tombstone e) c10_repo.index).getD 0)
            default))) })) :=
  ⟨by decide, remove_record_zero_tombstones_first_live c10_repo (by decide)⟩

/-! ## C3 — the cached info aggregates -/

/-- The spec §3.2 info invariant: the cached aggregates match the
non-tombstone entries. -/
abbrev pdr_repo_info_inv (s : pdr_repo_t) : Prop :=
  s.info.record_count = (pdr_repo_live_entries s).length ∧
  s.info.repository_size = ((pdr_repo_live_entries s).map (fun e => e.size)).sum ∧
  s.info.largest_record_size =
    (pdr_repo_live_entries s).foldl (fun m e => max m e.size) 0

theorem info_inv_update_info (s : pdr_repo_t) :
    pdr_repo_info_inv (pdr_repo_update_info s) := ⟨rfl, rfl, rfl⟩

theorem add_record_shape (repo : pdr_repo_t) (t : Nat) (d : List Nat) (dl : Nat)
    (r : pdr_repo_t) (h : Nat)
    (hadd : pdr_repo_add_record repo t d dl = some (r, h)) :
    ∃ x, r = pdr_repo_update_info x := by
  simp only [pdr_repo_add_record] at hadd
  split at hadd
  · simp at hadd
  · split at hadd
    · simp at hadd
    · simp only [Option.some.injEq, Prod.mk.injEq] at hadd
      exact ⟨_, hadd.1.symm⟩

theorem remove_record_update_shape (repo : pdr_repo_t) (h : Nat)
    (r : pdr_repo_t) (hrem : pdr_repo_remove_record repo h = some r) :
    ∃ x, r = pdr_repo_update_info x := by
  unfold pdr_repo_remove_record at hrem
  cases hfi : pdr_repo_find_index repo h with
  | none => rw [hfi] at hrem; exact absurd hrem (by simp)
  | some idx =>
    rw [hfi] at hrem
    simp only [Option.some.injEq] at hrem
    exact ⟨_, hrem.symm⟩

/-- Whether a repository operation is a top-level `indexRecord`. -/
def pdr_repo_op_is_index : pdr_repo_op → Bool
  | .index _ => true
  | _ => false

theorem info_inv_exec (s : pdr_repo_t) (op : pdr_repo_op)
    (hs : pdr_repo_info_inv s) (hop : pdr_repo_op_is_index op = false) :
    pdr_repo_info_inv (pdr_repo_exec s op) := by
  cases op with
  | init => exact ⟨rfl, rfl, rfl⟩
  | initExt buf => exact ⟨rfl, rfl, rfl⟩
  | add t d dl =>
    show pdr_repo_info_inv (pdr_cb_exec s (.add t d dl))
    cases hadd : pdr_repo_add_record s t d dl with
    | none => simpa [pdr_cb_exec, hadd] using hs
    | some p =>
      obtain ⟨r, hnd⟩ := p
      obtain ⟨x, hx⟩ := add_record_shape s t d dl r hnd hadd
      have : pdr_cb_exec s (.add t d dl) = r := by simp [pdr_cb_exec, hadd]
      rw [this, hx]
      exact info_inv_update_info x
  | index off => simp [pdr_repo_op_is_index] at hop
  | remove h =>
    show pdr_repo_info_inv (pdr_cb_exec s (.remove h))
    cases hrem : pdr_repo_remove_record s h with
    | none => simpa [pdr_cb_exec, hrem] using hs
    | some r =>
      obtain ⟨x, hx⟩ := remove_record_update_shape s h r hrem
      have : pdr_cb_exec s (.remove h) = r := by simp [pdr_cb_exec, hrem]
      rw [this, hx]
      exact info_inv_update_info x
  | runInit cb => exact info_inv_update_info _

/-- C3 counterexample: a successful `indexRecord` does not refresh the
cached info — after indexing a record in a zeroed external blob the cached
`record_count` is still 0 while one non-tombstone entry exists (the claim
asserts the invariant after every operation sequence, including
`indexRecord`). -/
theorem index_record_leaves_info_stale_counterexample :
    pdr_repo_op_is_index (pdr_repo_op.index 0) = true ∧
    (pdr_repo_index_record
      (pdr_repo_init_ext (List.replicate 16 0)) 0).isSome = true ∧
    ¬ pdr_repo_info_inv
      (pdr_repo_exec_ops pdr_repo_init
        [pdr_repo_op.initExt (List.replicate 16 0), pdr_repo_op.index 0]) := by
  refine ⟨rfl, by decide, ?_⟩
  intro hinv
  exact absurd hinv.1 (by decide)

/-- C3 amended: after every sequence of `init`, `initExternal`, `addRecord`,
`removeRecord` and `runInitAgent` operations (the callbacks of
`runInitAgent` may freely use `indexRecord`, since `runInitAgent` recomputes
the info afterwards), the cached info matches the non-tombstone entries:
`record_count` is their number, `repository_size` the sum of their sizes and
`largest_record_size` their maximum (0 if none).  A top-level `indexRecord`
is excluded: it does not refresh the cached info. -/
theorem info_cache_matches_live_entries (ops : List pdr_repo_op)
    (hops : ops.all (fun op => !pdr_repo_op_is_index op) = true) :
    pdr_repo_info_inv (pdr_repo_exec_ops pdr_repo_init ops) := by
  rw [List.all_eq_true] at hops
  suffices h : ∀ l : List pdr_repo_op, ∀ s : pdr_repo_t, pdr_repo_info_inv s →
      (∀ op ∈ l, pdr_repo_op_is_index op = false) →
      pdr_repo_info_inv (pdr_repo_exec_ops s l) by
    refine h ops pdr_repo_init ⟨rfl, rfl, rfl⟩ ?_
    intro op hop
    simpa using hops op hop
  intro l
  induction l with
  | nil => intro s hs _; exact hs
  | cons op rest ih =>
    intro s hs hall
    show pdr_repo_info_inv (pdr_repo_exec_ops (pdr_repo_exec s op) rest)
    refine ih _ (info_inv_exec s op hs (hall op (by simp))) ?_
    intro o ho
    exact hall o (by simp [ho])

/-- C3 witness: the amended theorem applied to a concrete sequence with an
add, a remove and a rebuild whose callback uses `indexRecord`. -/
theorem info_cache_matches_live_entries_witness :
    ([pdr_repo_op.initExt (List.replicate 32 0),
      pdr_repo_op.add 1 [0xAA, 0xBB] 2,
      pdr_repo_op.add 2 [0x01] 1,
      pdr_repo_op.remove 1,
      pdr_repo_op.runInit [pdr_cb_op.index 0]].all
        (fun op => !pdr_repo_op_is_index op) = true) ∧
    pdr_repo_info_inv (pdr_repo_exec_ops pdr_repo_init
      [pdr_repo_op.initExt (List.replicate 32 0),
       pdr_repo_op.add 1 [0xAA, 0xBB] 2,
       pdr_repo_op.add 2 [0x01] 1,
       pdr_repo_op.remove 1,
       pdr_repo_op.runInit [pdr_cb_op.index 0]]) :=
  ⟨by decide, info_cache_matches_live_entries _ (by decide)⟩

/-! ## C6 — the handle allocator invariant -/

/-- The spec §3.2 allocator invariant: `next_record_handle` is strictly
greater than every record handle stored in the index. -/
def pdr_repo_handle_inv (s : pdr_repo_t) : Bool :=
  s.index.all (fun e => decide (e.record_handle < s.next_record_handle))

theorem list_find_idx_lt_length {α : Type} (p : α → Bool) :
    ∀ (l : List α) (i : Nat), list_find_idx p l = some i → i < l.length := by
  intro l
  induction l with
  | nil => intro i h; simp [list_find_idx] at h
  | cons x xs ih =>
    intro i h
    by_cases hx : p x
    · simp only [list_find_idx, hx, if_true, Option.some.injEq] at h
      simp [← h]
    · simp only [list_find_idx, hx, if_false, Bool.false_eq_true] at h
      cases hfi : list_find_idx p xs with
      | none => rw [hfi] at h; simp at h
      | some j =>
        rw [hfi] at h
        simp only [Option.map_some', Option.some.injEq] at h
        have := ih j hfi
        simp only [List.length_cons]
        omega

theorem add_record_success_shape (repo : pdr_repo_t) (t : Nat) (d : List Nat)
    (dl : Nat) (r : pdr_repo_t) (h : Nat)
    (hadd : pdr_repo_add_record repo t d dl = some (r, h)) :
    r.index = repo.index ++
      [⟨repo.next_record_handle, repo.blob_used, (10 + dl) % 2 ^ 16, t, 0⟩] ∧
    r.next_record_handle = (repo.next_record_handle + 1) % 2 ^ 32 ∧
    h = repo.next_record_handle := by
  simp only [pdr_repo_add_record] at hadd
  split at hadd
  · simp at hadd
  · split at hadd
    · simp at hadd
    · simp only [Option.some.injEq, Prod.mk.injEq] at hadd
      obtain ⟨hr, hh⟩ := hadd
      subst hr
      exact ⟨rfl, rfl, hh.symm⟩

theorem index_record_success_shape (repo : pdr_repo_t) (off : Nat)
    (r : pdr_repo_t) (hidx : pdr_repo_index_record repo off = some r) :
    r.index = repo.index ++
      [⟨readLE32 repo.blob off, off, (10 + readLE16 repo.blob (off + 8)) % 2 ^ 16,
        repo.blob.getD (off + 5) 0, 0⟩] ∧
    r.next_record_handle =
      (if readLE32 repo.blob off ≥ repo.next_record_handle then
        (readLE32 repo.blob off + 1) % 2 ^ 32
      else repo.next_record_handle) := by
  simp only [pdr_repo_index_record] at hidx
  split at hidx
  · simp at hidx
  · split at hidx
    · simp at hidx
    · simp only [Option.some.injEq] at hidx
      subst hidx
      exact ⟨rfl, rfl⟩

theorem remove_record_success_shape (repo : pdr_repo_t) (h : Nat)
    (r : pdr_repo_t) (hrem : pdr_repo_remove_record repo h = some r) :
    ∃ idx, idx < repo.index.length ∧
      r.index = repo.index.set idx (tombstoned (repo.index.getD idx default)) ∧
      r.next_record_handle = repo.next_record_handle := by
  unfold pdr_repo_remove_record at hrem
  cases hfi : pdr_repo_find_index repo h with
  | none => rw [hfi] at hrem; exact absurd hrem (by simp)
  | some idx =>
    rw [hfi] at hrem
    simp only [Option.some.injEq] at hrem
    subst hrem
    refine ⟨idx, ?_, rfl, rfl⟩
    unfold pdr_repo_find_index at hfi
    split at hfi
    · exact list_find_idx_lt_length _ _ _ hfi
    · exact list_find_idx_lt_length _ _ _ hfi

/-- The wrap-freedom side condition of one callback operation: the 32-bit
allocator arithmetic of this step does not overflow. -/
def pdr_cb_step_ok (s : pdr_repo_t) : pdr_cb_op → Bool
  | .add _ _ _ => decide (s.next_record_handle + 1 < 2 ^ 32)
  | .index off => decide (readLE32 s.blob off + 1 < 2 ^ 32)
  | .remove _ => true

/-- Wrap-freedom of a callback operation sequence. -/
def pdr_cb_no_wrap : pdr_repo_t → List pdr_cb_op → Bool
  | _, [] => true
  | s, op :: rest => pdr_cb_step_ok s op && pdr_cb_no_wrap (pdr_cb_exec s op) rest

/-- The wrap-freedom side condition of one repository operation. -/
def pdr_repo_step_ok (s : pdr_repo_t) : pdr_repo_op → Bool
  | .add _ _ _ => decide (s.next_record_handle + 1 < 2 ^ 32)
  | .index off => decide (readLE32 s.blob off + 1 < 2 ^ 32)
  | .runInit cb => pdr_cb_no_wrap (pdr_repo_wipe s) cb
  | _ => true

/-- Wrap-freedom of a repository operation sequence. -/
def pdr_repo_no_wrap : pdr_repo_t → List pdr_repo_op → Bool
  | _, [] => true
  | s, op :: rest => pdr_repo_step_ok s op && pdr_repo_no_wrap (pdr_repo_exec s op) rest

theorem handle_inv_cb_step (s : pdr_repo_t) (op : pdr_cb_op)
    (hs : pdr_repo_handle_inv s = true) (hok : pdr_cb_step_ok s op = true) :
    pdr_repo_handle_inv (pdr_cb_exec s op) = true := by
  cases op with
  | add t d dl =>
    simp only [pdr_cb_step_ok, decide_eq_true_eq] at hok
    cases hadd : pdr_repo_add_record s t d dl with
    | none => simpa [pdr_cb_exec, hadd] using hs
    | some p =>
      obtain ⟨r, hd⟩ := p
      obtain ⟨hidx, hnext, -⟩ := add_record_success_shape s t d dl r hd hadd
      have hex : pdr_cb_exec s (.add t d dl) = r := by simp [pdr_cb_exec, hadd]
      rw [hex]
      unfold pdr_repo_handle_inv at hs ⊢
      rw [List.all_eq_true] at hs ⊢
      intro e he
      rw [hidx] at he
      rw [hnext, Nat.mod_eq_of_lt hok]
      rcases List.mem_append.1 he with h1 | h2
      · have := hs e h1
        simp only [decide_eq_true_eq] at *
        omega
      · simp only [List.mem_singleton] at h2
        subst h2
        simp only [decide_eq_true_eq]
        omega
  | index off =>
    simp only [pdr_cb_step_ok, decide_eq_true_eq] at hok
    cases hidx : pdr_repo_index_record s off with
    | none => simpa [pdr_cb_exec, hidx] using hs
    | some r =>
      obtain ⟨hix, hnext⟩ := index_record_success_shape s off r hidx
      have hex : pdr_cb_exec s (.index off) = r := by simp [pdr_cb_exec, hidx]
      rw [hex]
      unfold pdr_repo_handle_inv at hs ⊢
      rw [List.all_eq_true] at hs ⊢
      intro e he
      rw [hix] at he
      rw [hnext]
      rcases List.mem_append.1 he with h1 | h2
      · have := hs e h1
        simp only [decide_eq_true_eq] at *
        split
        · next hge => rw [Nat.mod_eq_of_lt hok]; omega
        · exact this
      · simp only [List.mem_singleton] at h2
        subst h2
        simp only [decide_eq_true_eq]
        split
        · next hge => rw [Nat.mod_eq_of_lt hok]; omega
        · next hge => omega
  | remove h =>
    cases hrem : pdr_repo_remove_record s h with
    | none => simpa [pdr_cb_exec, hrem] using hs
    | some r =>
      obtain ⟨idx, hlt, hix, hnext⟩ := remove_record_success_shape s h r hrem
      have hex : pdr_cb_exec s (.remove h) = r := by simp [pdr_cb_exec, hrem]
      rw [hex]
      unfold pdr_repo_handle_inv at hs ⊢
      rw [List.all_eq_true] at hs ⊢
      intro e he
      rw [hix] at he
      rw [hnext]
      rcases List.mem_or_eq_of_mem_set he with h1 | h2
      · exact hs e h1
      · subst h2
        have hmem : s.index.getD idx default ∈ s.index := by
          rw [List.getD_eq_getElem?_getD, List.getElem?_eq_getElem hlt,
            Option.getD_some]
          exact List.getElem_mem hlt
        have := hs _ hmem
        simpa [tombstoned] using this

theorem handle_inv_cb_fold :
    ∀ (cb : List pdr_cb_op) (s : pdr_repo_t),
      pdr_repo_handle_inv s = true → pdr_cb_no_wrap s cb = true →
      pdr_repo_handle_inv (cb.foldl pdr_cb_exec s) = true := by
  intro cb
  induction cb with
  | nil => intro s hs _; exact hs
  | cons op rest ih =>
    intro s hs hw
    simp only [pdr_cb_no_wrap, Bool.and_eq_true] at hw
    exact ih _ (handle_inv_cb_step s op hs hw.1) hw.2

theorem handle_inv_exec (s : pdr_repo_t) (op : pdr_repo_op)
    (hs : pdr_repo_handle_inv s = true) (hok : pdr_repo_step_ok s op = true) :
    pdr_repo_handle_inv (pdr_repo_exec s op) = true := by
  cases op with
  | init => rfl
  | initExt buf => rfl
  | add t d dl => exact handle_inv_cb_step s (.add t d dl) hs hok
  | index off => exact handle_inv_cb_step s (.index off) hs hok
  | remove h => exact handle_inv_cb_step s (.remove h) hs hok
  | runInit cb =>
    have hwipe : pdr_repo_handle_inv (pdr_repo_wipe s) = true := rfl
    have hcb := handle_inv_cb_fold cb (pdr_repo_wipe s) hwipe hok
    show pdr_repo_handle_inv (pdr_repo_run_init_agent s
      (fun r => cb.foldl pdr_cb_exec r)) = true
    unfold pdr_repo_run_init_agent
    exact hcb

/-- C6 amended: for every sequence of repository operations (init,
initExternal, addRecord, indexRecord, removeRecord, runInitAgent with any
callback) in which the 32-bit allocator arithmetic never wraps,
`next_record_handle` is strictly greater than every handle stored in the
index.  The claim fails for the manager's forced-handle insertions:
`addRemappedPdr` restores the saved allocator after the add, leaving the
remapped handle (e.g. 0x10001) above `next_record_handle`. -/
theorem next_record_handle_exceeds_stored_handles (ops : List pdr_repo_op)
    (hw : pdr_repo_no_wrap pdr_repo_init ops = true) :
    pdr_repo_handle_inv (pdr_repo_exec_ops pdr_repo_init ops) = true := by
  suffices h : ∀ (l : List pdr_repo_op) (s : pdr_repo_t),
      pdr_repo_handle_inv s = true → pdr_repo_no_wrap s l = true →
      pdr_repo_handle_inv (pdr_repo_exec_ops s l) = true from
    h ops pdr_repo_init rfl hw
  intro l
  induction l with
  | nil => intro s hs _; exact hs
  | cons op rest ih =>
    intro s hs hw
    simp only [pdr_repo_no_wrap, Bool.and_eq_true] at hw
    exact ih _ (handle_inv_exec s op hs hw.1) hw.2

/-- C6 counterexample: a single `addRemappedPdr` with the remapped handle
`remap(0, 1) = 0x10001` on a freshly initialized repository succeeds, and
afterwards the stored handle 0x10001 is NOT below `next_record_handle`
(which was restored to 1) — the claim asserts the invariant also across
forced-handle insertions. -/
theorem add_remapped_breaks_allocator_counterexample :
    (pdr_mgr_add_remapped_pdr (pdr_repo_init_ext (List.replicate 16 0))
      (pdr_mgr_remap_handle 0 1) 1 [] 0).2 = true ∧
    (pdr_mgr_add_remapped_pdr (pdr_repo_init_ext (List.replicate 16 0))
      (pdr_mgr_remap_handle 0 1) 1 [] 0).1.next_record_handle = 1 ∧
    pdr_repo_handle_inv
      (pdr_mgr_add_remapped_pdr (pdr_repo_init_ext (List.replicate 16 0))
        (pdr_mgr_remap_handle 0 1) 1 [] 0).1 = false := by
  decide

/-- C6 witness: the amended theorem applied to a concrete wrap-free
sequence exercising add, index, remove and a rebuild. -/
theorem next_record_handle_exceeds_stored_handles_witness :
    pdr_repo_no_wrap pdr_repo_init
      [pdr_repo_op.initExt (List.replicate 32 0),
       pdr_repo_op.add 1 [0xAA] 1,
       pdr_repo_op.index 0,
       pdr_repo_op.remove 1,
       pdr_repo_op.runInit [pdr_cb_op.add 2 [] 0]] = true ∧
    pdr_repo_handle_inv (pdr_repo_exec_ops pdr_repo_init
      [pdr_repo_op.initExt (List.replicate 32 0),
       pdr_repo_op.add 1 [0xAA] 1,
       pdr_repo_op.index 0,
       pdr_repo_op.remove 1,
       pdr_repo_op.runInit [pdr_cb_op.add 2 [] 0]]) = true :=
  ⟨by decide, next_record_handle_exceeds_stored_handles _ (by decide)⟩

/-! ## C9 — index slots are never reclaimed before a rebuild -/

/-- Execute callback operations while counting the successful
`addRecord` / `indexRecord` calls. -/
def pdr_cb_exec_count : pdr_repo_t → Nat → List pdr_cb_op → pdr_repo_t × Nat
  | s, acc, [] => (s, acc)
  | s, acc, op :: rest =>
    let p : pdr_repo_t × Nat :=
      match op with
      | pdr_cb_op.add t d dl =>
        match pdr_repo_add_record s t d dl with
        | some (r, _) => (r, acc + 1)
        | none => (s, acc)
      | pdr_cb_op.index off =>
        match pdr_repo_index_record s off with
        | some r => (r, acc + 1)
        | none => (s, acc)
      | pdr_cb_op.remove h => ((pdr_repo_remove_record s h).getD s, acc)
    pdr_cb_exec_count p.1 p.2 rest

/-- Execute repository operations while counting the successful
`addRecord` / `indexRecord` calls since the last `init`, `initExternal` or
`runInitAgent` wipe (those reset the count to the successes performed by
the populate callback, which run on the wiped state). -/
def pdr_repo_exec_count : pdr_repo_t → Nat → List pdr_repo_op → pdr_repo_t × Nat
  | s, acc, [] => (s, acc)
  | s, acc, op :: rest =>
    let p : pdr_repo_t × Nat :=
      match op with
      | pdr_repo_op.init => (pdr_repo_init, 0)
      | pdr_repo_op.initExt buf => (pdr_repo_init_ext buf, 0)
      | pdr_repo_op.add t d dl =>
        match pdr_repo_add_record s t d dl with
        | some (r, _) => (r, acc + 1)
        | none => (s, acc)
      | pdr_repo_op.index off =>
        match pdr_repo_index_record s off with
        | some r => (r, acc + 1)
        | none => (s, acc)
      | pdr_repo_op.remove h => ((pdr_repo_remove_record s h).getD s, acc)
      | pdr_repo_op.runInit cb =>
        let q := pdr_cb_exec_count (pdr_repo_wipe s) 0 cb
        (pdr_repo_update_info
          { q.1 with info := { q.1.info with repository_state := 0 } }, q.2)
    pdr_repo_exec_count p.1 p.2 rest

theorem cb_exec_count_length :
    ∀ (cb : List pdr_cb_op) (s : pdr_repo_t) (acc : Nat),
      s.index.length = acc →
      (pdr_cb_exec_count s acc cb).1.index.length = (pdr_cb_exec_count s acc cb).2 := by
  intro cb
  induction cb with
  | nil => intro s acc h; exact h
  | cons op rest ih =>
    intro s acc h
    cases op with
    | add t d dl =>
      cases hadd : pdr_repo_add_record s t d dl with
      | none => simpa [pdr_cb_exec_count, hadd] using ih s acc h
      | some p =>
        obtain ⟨r, hd⟩ := p
        obtain ⟨hidx, -, -⟩ := add_record_success_shape s t d dl r hd hadd
        have hlen : r.index.length = acc + 1 := by
          rw [hidx]; simp [h]
        simpa [pdr_cb_exec_count, hadd] using ih r (acc + 1) hlen
    | index off =>
      cases hix : pdr_repo_index_record s off with
      | none => simpa [pdr_cb_exec_count, hix] using ih s acc h
      | some r =>
        obtain ⟨hidx, -⟩ := index_record_success_shape s off r hix
        have hlen : r.index.length = acc + 1 := by
          rw [hidx]; simp [h]
        simpa [pdr_cb_exec_count, hix] using ih r (acc + 1) hlen
    | remove hh =>
      cases hrem : pdr_repo_remove_record s hh with
      | none => simpa [pdr_cb_exec_count, hrem] using ih s acc h
      | some r =>
        obtain ⟨idx, -, hidx, -⟩ := remove_record_success_shape s hh r hrem
        have hlen : r.index.length = acc := by
          rw [hidx]; simp [h]
        simpa [pdr_cb_exec_count, hrem] using ih r acc hlen

theorem exec_count_length :
    ∀ (ops : List pdr_repo_op) (s : pdr_repo_t) (acc : Nat),
      s.index.length = acc →
      (pdr_repo_exec_count s acc ops).1.index.length =
        (pdr_repo_exec_count s acc ops).2 := by
  intro ops
  induction ops with
  | nil => intro s acc h; exact h
  | cons op rest ih =>
    intro s acc h
    cases op with
    | init => simpa [pdr_repo_exec_count] using ih pdr_repo_init 0 rfl
    | initExt buf =>
      simpa [pdr_repo_exec_count] using ih (pdr_repo_init_ext buf) 0 rfl
    | add t d dl =>
      cases hadd : pdr_repo_add_record s t d dl with
      | none => simpa [pdr_repo_exec_count, hadd] using ih s acc h
      | some p =>
        obtain ⟨r, hd⟩ := p
        obtain ⟨hidx, -, -⟩ := add_record_success_shape s t d dl r hd hadd
        have hlen : r.index.length = acc + 1 := by
          rw [hidx]; simp [h]
        simpa [pdr_repo_exec_count, hadd] using ih r (acc + 1) hlen
    | index off =>
      cases hix : pdr_repo_index_record s off with
      | none => simpa [pdr_repo_exec_count, hix] using ih s acc h
      | some r =>
        obtain ⟨hidx, -⟩ := index_record_success_shape s off r hix
        have hlen : r.index.length = acc + 1 := by
          rw [hidx]; simp [h]
        simpa [pdr_repo_exec_count, hix] using ih r (acc + 1) hlen
    | remove hh =>
      cases hrem : pdr_repo_remove_record s hh with
      | none => simpa [pdr_repo_exec_count, hrem] using ih s acc h
      | some r =>
        obtain ⟨idx, -, hidx, -⟩ := remove_record_success_shape s hh r hrem
        have hlen : r.index.length = acc := by
          rw [hidx]; simp [h]
        simpa [pdr_repo_exec_count, hrem] using ih r acc hlen
    | runInit cb =>
      have hcb := cb_exec_count_length cb (pdr_repo_wipe s) 0 rfl
      have hlen : (pdr_repo_update_info
          { (pdr_cb_exec_count (pdr_repo_wipe s) 0 cb).1 with
            info := { (pdr_cb_exec_count (pdr_repo_wipe s) 0 cb).1.info with
              repository_state := 0 } }).index.length =
          (pdr_cb_exec_count (pdr_repo_wipe s) 0 cb).2 := by
        rw [update_info_index]
        exact hcb
      simpa [pdr_repo_exec_count] using ih _ _ hlen

/-- C9 confirmed: tombstoned entries keep occupying their index slots, so
once 64 `addRecord` / `indexRecord` calls have succeeded since the last
init or rebuild — no matter how many records were removed in between —
every further `addRecord` fails. -/
theorem index_slots_never_reclaimed (ops : List pdr_repo_op) (pdr_type : Nat)
    (data : List Nat) (data_len : Nat)
    (h64 : 64 ≤ (pdr_repo_exec_count pdr_repo_init 0 ops).2) :
    pdr_repo_add_record (pdr_repo_exec_count pdr_repo_init 0 ops).1 pdr_type
      data data_len = none := by
  have hlen := exec_count_length ops pdr_repo_init 0 rfl
  rw [add_record_rejects_iff_full_or_wrapped_nospace]
  left
  show PDR_MAX_RECORD_COUNT ≤ _
  unfold PDR_MAX_RECORD_COUNT
  omega

/-- C9 witness: 64 successful `indexRecord` registrations fill the index;
a further `addRecord` fails even though many removals could have happened. -/
theorem index_slots_never_reclaimed_witness :
    64 ≤ (pdr_repo_exec_count pdr_repo_init 0
      (pdr_repo_op.initExt (List.replicate 16 0) ::
        List.replicate 64 (pdr_repo_op.index 0))).2 ∧
    pdr_repo_add_record (pdr_repo_exec_count pdr_repo_init 0
      (pdr_repo_op.initExt (List.replicate 16 0) ::
        List.replicate 64 (pdr_repo_op.index 0))).1 1 [0xAA] 1 = none :=
  ⟨by decide,
    index_slots_never_reclaimed
      (pdr_repo_op.initExt (List.replicate 16 0) ::
        List.replicate 64 (pdr_repo_op.index 0)) 1 [0xAA] 1 (by decide)⟩

/-! ## C5 — GetPDR multi-chunk read contract -/

/-- C5 confirmed: for a record resolved at index `idx` and any
`data_transfer_handle` `d` below the record size `S`, GetPDR returns the
`min (S − d) 128`-byte slice starting at byte `d` of the record, sets
`nextDataTransferHandle` to 0 when `d + chunk ≥ S` and to `d + chunk`
otherwise, and sets the transfer flag to startAndEnd(5) / start(0) /
end(4) / middle(1) according to whether the chunk is first and/or last. -/
theorem get_pdr_chunking (repo : pdr_repo_t) (h d idx : Nat)
    (hfind : pdr_repo_find_index repo h = some idx)
    (hd : d < (repo.index.getD idx default).size) :
    pdr_repo_get_pdr repo h d =
      some { next_record_handle := pdr_repo_next_live_handle repo idx,
             next_data_transfer_handle :=
               if (repo.index.getD idx default).size ≤
                   d + min ((repo.index.getD idx default).size - d) 128 then 0
               else d + min ((repo.index.getD idx default).size - d) 128,
             transfer_flag :=
               if d = 0 ∧ (repo.index.getD idx default).size ≤
                   d + min ((repo.index.getD idx default).size - d) 128 then 5
               else if d = 0 then 0
               else if (repo.index.getD idx default).size ≤
                   d + min ((repo.index.getD idx default).size - d) 128 then 4
               else 1,
             data := (repo.blob.drop ((repo.index.getD idx default).offset + d)).take
               (min ((repo.index.getD idx default).size - d) 128),
             data_len := min ((repo.index.getD idx default).size - d) 128 } := by
  simp only [pdr_repo_get_pdr, hfind]
  rw [if_neg (by omega)]
  have hchunk : (if (repo.index.getD idx default).size - d > PDR_TRANSFER_CHUNK_SIZE
      then PDR_TRANSFER_CHUNK_SIZE else (repo.index.getD idx default).size - d) =
      min ((repo.index.getD idx default).size - d) 128 := by
    unfold PDR_TRANSFER_CHUNK_SIZE
    split <;> omega
  rw [hchunk]

/-- The C5 witness repository: records of total size 128 (handle 1) and
129 (handle 2). -/
def c5_repo : pdr_repo_t :=
  ((pdr_repo_add_record
    ((pdr_repo_add_record (pdr_repo_init_ext (List.replicate 260 0)) 1
      (List.replicate 118 0xAA) 118).getD default).1 1
    (List.replicate 119 0xBB) 119).getD default).1

/-- C5 witness: the theorem applied to the 128-byte record (one
startAndEnd chunk), together with the two-chunk read of the 129-byte
record (128-byte start, then 1-byte end). -/
theorem get_pdr_chunking_witness :
    (pdr_repo_find_index c5_repo 1 = some 0 ∧
      0 < (c5_repo.index.getD 0 default).size) ∧
    pdr_repo_get_pdr c5_repo 1 0 =
      some { next_record_handle := pdr_repo_next_live_handle c5_repo 0,
             next_data_transfer_handle :=
               if (c5_repo.index.getD 0 default).size ≤
                   0 + min ((c5_repo.index.getD 0 default).size - 0) 128 then 0
               else 0 + min ((c5_repo.index.getD 0 default).size - 0) 128,
             transfer_flag :=
               if 0 = 0 ∧ (c5_repo.index.getD 0 default).size ≤
                   0 + min ((c5_repo.index.getD 0 default).size - 0) 128 then 5
               else if 0 = 0 then 0
               else if (c5_repo.index.getD 0 default).size ≤
                   0 + min ((c5_repo.index.getD 0 default).size - 0) 128 then 4
               else 1,
             data := (c5_repo.blob.drop ((c5_repo.index.getD 0 default).offset + 0)).take
               (min ((c5_repo.index.getD 0 default).size - 0) 128),
             data_len := min ((c5_repo.index.getD 0 default).size - 0) 128 } ∧
    (c5_repo.index.getD 0 default).size = 128 ∧
    (pdr_repo_get_pdr c5_repo 1 0).map
      (fun o => (o.data_len, o.transfer_flag, o.next_data_transfer_handle)) =
      some (128, 5, 0) ∧
    (c5_repo.index.getD 1 default).size = 129 ∧
    (pdr_repo_get_pdr c5_repo 2 0).map
      (fun o => (o.data_len, o.transfer_flag, o.next_data_transfer_handle)) =
      some (128, 0, 128) ∧
    (pdr_repo_get_pdr c5_repo 2 128).map
      (fun o => (o.data_len, o.transfer_flag, o.next_data_transfer_handle)) =
      some (1, 4, 0) :=
  ⟨⟨by decide, by decide⟩, get_pdr_chunking c5_repo 1 0 0 (by decide) (by decide),
    by decide, by decide, by decide, by decide, by decide⟩

/-! ## C4 — event-handler fallback on sub-operation failure -/

theorem pdr_chg_apply_records_eq (env : pdr_chg_handler_env) :
    ∀ (rs : List pdr_chg_record_t) (i : Nat),
      pdr_chg_apply_records env i rs =
        if ((List.range rs.length).any fun j =>
            pdr_chg_dispatch_rc env (i + j)
              ((rs.getD j default).event_data_operation) != 0) = true
        then env.sync_rc else 0 := by
  intro rs
  induction rs with
  | nil => intro i; simp [pdr_chg_apply_records]
  | cons rec rest ih =>
    intro i
    have hcond : (((List.range (rec :: rest).length).any fun j =>
        pdr_chg_dispatch_rc env (i + j)
          ((rec :: rest).getD j default).event_data_operation != 0) = true) ↔
        (pdr_chg_dispatch_rc env i rec.event_data_operation ≠ 0 ∨
          ((List.range rest.length).any fun j =>
            pdr_chg_dispatch_rc env (i + 1 + j)
              ((rest.getD j default).event_data_operation) != 0) = true) := by
      simp only [List.any_eq_true, List.mem_range, List.length_cons, bne_iff_ne,
        ne_eq]
      constructor
      · rintro ⟨j, hj, hd⟩
        cases j with
        | zero =>
          left
          simpa using hd
        | succ j2 =>
          right
          refine ⟨j2, by omega, ?_⟩
          have harr : i + (j2 + 1) = i + 1 + j2 := by omega
          simp only [List.getD_cons_succ] at hd
          rw [harr] at hd
          exact hd
      · rintro (h0 | ⟨j, hj, hd⟩)
        · exact ⟨0, by omega, by simpa using h0⟩
        · refine ⟨j + 1, by omega, ?_⟩
          have harr : i + (j + 1) = i + 1 + j := by omega
          simp only [List.getD_cons_succ]
          rw [harr]
          exact hd
    simp only [pdr_chg_apply_records]
    by_cases hrc : pdr_chg_dispatch_rc env i rec.event_data_operation ≠ 0
    · rw [if_pos hrc, if_pos (hcond.2 (Or.inl hrc))]
    · rw [if_neg hrc, ih (i + 1)]
      by_cases hany : ((List.range rest.length).any fun j =>
          pdr_chg_dispatch_rc env (i + 1 + j)
            ((rest.getD j default).event_data_operation) != 0) = true
      · rw [if_pos hany, if_pos (hcond.2 (Or.inr hany))]
      · rw [if_neg hany, if_neg]
        intro hc
        rcases hcond.1 hc with h0 | h1
        · exact hrc h0
        · exact hany h1

/-- C4 confirmed: for a decoded, valid `formatIsPDRHandles` event on a known
terminus, the handler returns `syncTerminus`'s result as soon as any
per-record dispatch (`handle_deletes` / `handle_adds` / `handle_modifies`)
fails, and returns 0 when all dispatches succeed — so it can only fail when
decoding fails, the eid is unknown, or the fallback sync itself fails. -/
theorem handler_falls_back_to_sync (env : pdr_chg_handler_env)
    (event_data : List Nat) (ev : pdr_chg_event_t)
    (hdec : pdr_chg_event_decode event_data = some ev)
    (hfmt : ev.event_data_format = PDR_CHG_FORMAT_PDR_HANDLES)
    (hterm : env.term_found = true) :
    pdr_chg_event_handle env event_data =
      if ((List.range ev.change_records.length).any fun j =>
          pdr_chg_dispatch_rc env j
            ((ev.change_records.getD j default).event_data_operation) != 0) = true
      then env.sync_rc else 0 := by
  unfold pdr_chg_event_handle
  rw [hdec]
  simp only
  rw [if_neg (by simp [hfmt, PDR_CHG_FORMAT_PDR_HANDLES,
    PDR_CHG_FORMAT_REFRESH_ENTIRE, PDR_CHG_FORMAT_PDR_TYPES])]
  rw [if_neg (by simp [hterm])]
  rw [pdr_chg_apply_records_eq env ev.change_records 0]
  simp only [Nat.zero_add]

/-- The C4 witness environment: deletes and modifies succeed, every add
fetch fails, and the fallback sync returns 5. -/
def c4_env : pdr_chg_handler_env :=
  { term_found := true, delete_rc := fun _ => 0, add_rc := fun _ => -1,
    modify_rc := fun _ => 0, sync_rc := 5 }

/-- C4 witness: the theorem applied to the wire event
`{formatIsPDRHandles, [{recordsDeleted,[10]},{recordsAdded,[30]}]}` in an
environment where the add dispatch fails, so the handler returns the sync
result. -/
theorem handler_falls_back_to_sync_witness :
    (pdr_chg_event_decode [2, 2, 1, 1, 10, 0, 0, 0, 2, 1, 30, 0, 0, 0] =
      some ⟨2, [⟨1, [10]⟩, ⟨2, [30]⟩]⟩ ∧
     (pdr_chg_event_t.event_data_format ⟨2, [⟨1, [10]⟩, ⟨2, [30]⟩]⟩) =
      PDR_CHG_FORMAT_PDR_HANDLES ∧
     c4_env.term_found = true) ∧
    pdr_chg_event_handle c4_env [2, 2, 1, 1, 10, 0, 0, 0, 2, 1, 30, 0, 0, 0] =
      (if ((List.range (pdr_chg_event_t.change_records
            ⟨2, [⟨1, [10]⟩, ⟨2, [30]⟩]⟩).length).any fun j =>
          pdr_chg_dispatch_rc c4_env j
            (((pdr_chg_event_t.change_records
              ⟨2, [⟨1, [10]⟩, ⟨2, [30]⟩]⟩).getD j default).event_data_operation)
            != 0) = true
       then c4_env.sync_rc else 0) :=
  ⟨⟨by decide, by decide, by decide⟩,
    handler_falls_back_to_sync c4_env _ ⟨2, [⟨1, [10]⟩, ⟨2, [30]⟩]⟩ (by decide)
      (by decide) (by decide)⟩

/-! ## C7 — encode/decode roundtrip -/

theorem lor_shiftLeft_add (a b n : Nat) (h : a < 2 ^ n) :
    a ||| (b <<< n) = a + b * 2 ^ n := by
  calc a ||| (b <<< n) = a ||| (b * 2 ^ n) := by rw [Nat.shiftLeft_eq]
    _ = (2 ^ n * b) ||| a := by rw [mul_comm, Nat.lor_comm]
    _ = 2 ^ n * b + a := (Nat.mul_add_lt_is_or h b).symm
    _ = a + b * 2 ^ n := by ring

theorem read_u32_le32 (v : Nat) (rest : List Nat) (hv : v < 2 ^ 32) :
    pdr_chg_read_u32 (le32 v ++ rest) = v := by
  have e8 : (2 : Nat) ^ 8 = 256 := rfl
  have e16 : (2 : Nat) ^ 16 = 65536 := rfl
  have e24 : (2 : Nat) ^ 24 = 16777216 := rfl
  have e32 : (2 : Nat) ^ 32 = 4294967296 := rfl
  simp only [pdr_chg_read_u32, le32, List.cons_append, List.nil_append,
    List.getD_cons_zero, List.getD_cons_succ]
  rw [lor_shiftLeft_add _ _ 8 (by omega)]
  rw [lor_shiftLeft_add _ _ 16 (by rw [e8, e16] at *; omega)]
  rw [lor_shiftLeft_add _ _ 24 (by rw [e8, e16, e24] at *; omega)]
  rw [e8, e16, e24] at *
  rw [e32] at hv
  omega

theorem le32_append_drop (v : Nat) (rest : List Nat) :
    (le32 v ++ rest).drop 4 = rest := rfl

/-- The concatenated little-endian encodings of a list of 32-bit entries. -/
def le32_concat : List Nat → List Nat
  | [] => []
  | v :: t => le32 v ++ le32_concat t

theorem le32_concat_length : ∀ es : List Nat, (le32_concat es).length = 4 * es.length := by
  intro es
  induction es with
  | nil => rfl
  | cons v t ih => simp [le32_concat, le32, ih]; omega

theorem decode_entries_concat :
    ∀ (es : List Nat) (rest : List Nat), (∀ v ∈ es, v < 2 ^ 32) →
      pdr_chg_decode_entries es.length (le32_concat es ++ rest) = (es, rest) := by
  intro es
  induction es with
  | nil => intro rest _; rfl
  | cons v t ih =>
    intro rest hv
    have hv0 : v < 2 ^ 32 := hv v (by simp)
    have hvt : ∀ w ∈ t, w < 2 ^ 32 := fun w hw => hv w (by simp [hw])
    show pdr_chg_decode_entries (t.length + 1) (le32_concat (v :: t) ++ rest) = _
    have hbuf : le32_concat (v :: t) ++ rest = le32 v ++ (le32_concat t ++ rest) := by
      simp [le32_concat]
    rw [hbuf]
    simp only [pdr_chg_decode_entries]
    rw [read_u32_le32 v _ hv0, le32_append_drop, ih rest hvt]

theorem encode_entries_concat (bs : Nat) :
    ∀ (es : List Nat) (off : Nat), off + 4 * es.length ≤ bs →
      pdr_chg_encode_entries bs off es = some (le32_concat es, off + 4 * es.length) := by
  intro es
  induction es with
  | nil => intro off h; simp [pdr_chg_encode_entries, le32_concat]
  | cons v t ih =>
    intro off h
    simp only [List.length_cons] at h
    have hnb : ¬ (off + 4 > bs) := by omega
    have ht : (off + 4) + 4 * t.length ≤ bs := by omega
    simp only [pdr_chg_encode_entries, hnb, if_false]
    rw [ih (off + 4) ht]
    dsimp only
    simp only [le32_concat, List.length_cons, Option.some.injEq, Prod.mk.injEq]
    exact ⟨trivial, by omega⟩

/-- The wire bytes of one change record. -/
def pdr_chg_rec_bytes (r : pdr_chg_record_t) : List Nat :=
  r.event_data_operation :: r.change_entries.length :: le32_concat r.change_entries

/-- The wire bytes of a list of change records. -/
def pdr_chg_recs_bytes : List pdr_chg_record_t → List Nat
  | [] => []
  | r :: t => pdr_chg_rec_bytes r ++ pdr_chg_recs_bytes t

/-- The encoded size of a list of change records (`Σ (2 + 4·numEntries)`). -/
def pdr_chg_recs_size : List pdr_chg_record_t → Nat
  | [] => 0
  | r :: t => 2 + 4 * r.change_entries.length + pdr_chg_recs_size t

theorem calc_encoded_size_eq (e : pdr_chg_event_t) :
    calc_encoded_size e = 2 + pdr_chg_recs_size e.change_records := by
  have aux : ∀ (rs : List pdr_chg_record_t) (a : Nat),
      rs.foldl (fun size r => size + 2 + r.change_entries.length * 4) a =
        a + pdr_chg_recs_size rs := by
    intro rs
    induction rs with
    | nil => intro a; simp [pdr_chg_recs_size]
    | cons r t ih =>
      intro a
      simp only [List.foldl_cons, pdr_chg_recs_size, ih]
      omega
  unfold calc_encoded_size
  exact aux e.change_records 2

theorem encode_records_concat (bs : Nat) :
    ∀ (rs : List pdr_chg_record_t) (off : Nat), off + pdr_chg_recs_size rs ≤ bs →
      pdr_chg_encode_records bs off rs =
        some (pdr_chg_recs_bytes rs, off + pdr_chg_recs_size rs) := by
  intro rs
  induction rs with
  | nil => intro off h; simp [pdr_chg_encode_records, pdr_chg_recs_bytes,
      pdr_chg_recs_size]
  | cons r t ih =>
    intro off h
    simp only [pdr_chg_recs_size] at h
    have hnb : ¬ (off + 2 > bs) := by omega
    have hent : (off + 2) + 4 * r.change_entries.length ≤ bs := by omega
    have hrest : (off + 2 + 4 * r.change_entries.length) + pdr_chg_recs_size t ≤ bs := by
      omega
    simp only [pdr_chg_encode_records, hnb, if_false]
    rw [encode_entries_concat bs r.change_entries (off + 2) hent]
    dsimp only
    rw [ih (off + 2 + 4 * r.change_entries.length) hrest]
    dsimp only
    simp only [pdr_chg_recs_bytes, pdr_chg_rec_bytes, pdr_chg_recs_size,
      List.cons_append, Option.some.injEq, Prod.mk.injEq]
    exact ⟨trivial, by omega⟩

theorem decode_records_concat :
    ∀ (rs : List pdr_chg_record_t) (rest : List Nat),
      (∀ r ∈ rs, r.change_entries.length ≤ 16) →
      (∀ r ∈ rs, ∀ v ∈ r.change_entries, v < 2 ^ 32) →
      pdr_chg_decode_records rs.length (pdr_chg_recs_bytes rs ++ rest) =
        some (rs, rest) := by
  intro rs
  induction rs with
  | nil => intro rest _ _; rfl
  | cons r t ih =>
    intro rest hb hw
    have hb0 : r.change_entries.length ≤ 16 := hb r (by simp)
    have hw0 : ∀ v ∈ r.change_entries, v < 2 ^ 32 := hw r (by simp)
    have hbt : ∀ x ∈ t, x.change_entries.length ≤ 16 :=
      fun x hx => hb x (by simp [hx])
    have hwt : ∀ x ∈ t, ∀ v ∈ x.change_entries, v < 2 ^ 32 :=
      fun x hx => hw x (by simp [hx])
    have hbuf : pdr_chg_recs_bytes (r :: t) ++ rest =
        r.event_data_operation :: r.change_entries.length ::
          (le32_concat r.change_entries ++ (pdr_chg_recs_bytes t ++ rest)) := by
      simp [pdr_chg_recs_bytes, pdr_chg_rec_bytes]
    show pdr_chg_decode_records (t.length + 1) _ = _
    rw [hbuf]
    simp only [pdr_chg_decode_records, List.length_cons]
    rw [if_neg (by simp)]
    simp only [List.getD_cons_zero, List.getD_cons_succ]
    rw [if_neg (by
      show ¬ r.change_entries.length > PDR_CHG_EVENT_MAX_ENTRIES
      unfold PDR_CHG_EVENT_MAX_ENTRIES
      omega)]
    rw [if_neg (by
      simp only [List.length_cons, List.length_append, le32_concat_length]
      omega)]
    rw [List.drop_succ_cons, List.drop_succ_cons, List.drop_zero]
    rw [decode_entries_concat r.change_entries _ hw0]
    dsimp only
    rw [ih rest hbt hwt]

theorem validate_records_entry_bound :
    ∀ (rs : List pdr_chg_record_t) (f last_op : Nat),
      pdr_chg_validate_records f last_op rs = true →
      ∀ r ∈ rs, r.change_entries.length ≤ 16 := by
  intro rs
  induction rs with
  | nil => intro f last_op _ r hr; simp at hr
  | cons x t ih =>
    intro f last_op hval r hr
    unfold pdr_chg_validate_records at hval
    split at hval
    · simp at hval
    · split at hval
      · simp at hval
      · split at hval
        · simp at hval
        · split at hval
          · simp at hval
          · next h4 =>
            rcases List.mem_cons.1 hr with h | h
            · subst h
              unfold PDR_CHG_EVENT_MAX_ENTRIES at h4
              omega
            · exact ih f x.event_data_operation hval r h

/-- C7 confirmed: encoding a validated event (with 32-bit entry values)
into a buffer at least `calc_encoded_size` bytes large succeeds, producing
`[format][numRecords]` followed by the per-record wire bytes with the
encoded length equal to `calc_encoded_size`, and decoding those bytes
yields the original event (same format, record count, and per-record
operation, entry count and entry values). -/
theorem encode_decode_roundtrip (e : pdr_chg_event_t) (buf_size : Nat)
    (hval : pdr_chg_event_validate e = true)
    (hwf : ∀ r ∈ e.change_records, ∀ v ∈ r.change_entries, v < 2 ^ 32)
    (hsz : calc_encoded_size e ≤ buf_size) :
    pdr_chg_event_encode e buf_size =
      some (e.event_data_format :: e.change_records.length ::
        pdr_chg_recs_bytes e.change_records, calc_encoded_size e) ∧
    pdr_chg_event_decode (e.event_data_format :: e.change_records.length ::
      pdr_chg_recs_bytes e.change_records) = some e := by
  obtain ⟨fmt, rs⟩ := e
  simp only at hwf
  rw [calc_encoded_size_eq] at hsz ⊢
  simp only at hsz ⊢
  constructor
  · -- encode
    unfold pdr_chg_event_encode
    rw [hval]
    rw [if_neg (by simp)]
    rw [if_neg (by omega)]
    rw [encode_records_concat buf_size rs 2 (by omega)]
  · -- decode
    by_cases hfmt0 : fmt = PDR_CHG_FORMAT_REFRESH_ENTIRE
    · subst hfmt0
      unfold pdr_chg_event_validate at hval
      rw [if_pos rfl] at hval
      have hnil : rs = [] := by
        simpa [List.length_eq_zero] using hval
      subst hnil
      rfl
    · -- extract the remaining validation facts
      have hval2 := hval
      unfold pdr_chg_event_validate at hval2
      rw [if_neg hfmt0] at hval2
      by_cases hfmt12 : fmt ≠ PDR_CHG_FORMAT_PDR_TYPES ∧ fmt ≠ PDR_CHG_FORMAT_PDR_HANDLES
      · rw [if_pos hfmt12] at hval2
        simp at hval2
      · rw [if_neg hfmt12] at hval2
        by_cases hlen4 : rs.length > PDR_CHG_EVENT_MAX_RECORDS
        · rw [if_pos hlen4] at hval2
          simp at hval2
        · rw [if_neg hlen4] at hval2
          have hbound := validate_records_entry_bound rs fmt 0 hval2
          unfold pdr_chg_event_decode
          rw [if_neg (by simp)]
          simp only [List.getD_cons_zero, List.getD_cons_succ]
          rw [if_neg hfmt0, if_neg hlen4]
          rw [List.drop_succ_cons, List.drop_succ_cons, List.drop_zero]
          have hdec := decode_records_concat rs [] hbound hwf
          rw [List.append_nil] at hdec
          rw [hdec]
          dsimp only
          rw [if_pos hval]

/-- C7 witness: the roundtrip theorem applied to the S4 event
`{formatIsPDRHandles, [{recordsDeleted,[0x11,0x22]},{recordsAdded,[0x33]}]}`
with a 64-byte buffer. -/
theorem encode_decode_roundtrip_witness :
    (pdr_chg_event_validate ⟨2, [⟨1, [0x11, 0x22]⟩, ⟨2, [0x33]⟩]⟩ = true ∧
     (∀ r ∈ pdr_chg_event_t.change_records ⟨2, [⟨1, [0x11, 0x22]⟩, ⟨2, [0x33]⟩]⟩,
        ∀ v ∈ r.change_entries, v < 2 ^ 32) ∧
     calc_encoded_size ⟨2, [⟨1, [0x11, 0x22]⟩, ⟨2, [0x33]⟩]⟩ ≤ 64) ∧
    (pdr_chg_event_encode ⟨2, [⟨1, [0x11, 0x22]⟩, ⟨2, [0x33]⟩]⟩ 64 =
      some ((pdr_chg_event_t.event_data_format ⟨2, [⟨1, [0x11, 0x22]⟩, ⟨2, [0x33]⟩]⟩) ::
        (pdr_chg_event_t.change_records ⟨2, [⟨1, [0x11, 0x22]⟩, ⟨2, [0x33]⟩]⟩).length ::
        pdr_chg_recs_bytes (pdr_chg_event_t.change_records
          ⟨2, [⟨1, [0x11, 0x22]⟩, ⟨2, [0x33]⟩]⟩),
        calc_encoded_size ⟨2, [⟨1, [0x11, 0x22]⟩, ⟨2, [0x33]⟩]⟩) ∧
     pdr_chg_event_decode
      ((pdr_chg_event_t.event_data_format ⟨2, [⟨1, [0x11, 0x22]⟩, ⟨2, [0x33]⟩]⟩) ::
        (pdr_chg_event_t.change_records ⟨2, [⟨1, [0x11, 0x22]⟩, ⟨2, [0x33]⟩]⟩).length ::
        pdr_chg_recs_bytes (pdr_chg_event_t.change_records
          ⟨2, [⟨1, [0x11, 0x22]⟩, ⟨2, [0x33]⟩]⟩)) =
      some ⟨2, [⟨1, [0x11, 0x22]⟩, ⟨2, [0x33]⟩]⟩) :=
  ⟨⟨by decide, by decide, by decide⟩,
    encode_decode_roundtrip ⟨2, [⟨1, [0x11, 0x22]⟩, ⟨2, [0x33]⟩]⟩ 64 (by decide)
      (by decide) (by decide)⟩

/-! ## C8 — buildEvent composition and fallback -/

/-- The records `pdr_chg_tracker_build_event` composes when nothing goes to
fallback: the non-empty pending records in delete → add → modify order. -/
def pdr_chg_composed_records (t : pdr_chg_tracker_t) : List pdr_chg_record_t :=
  (if t.deletes.change_entries.length > 0 then [t.deletes] else []) ++
  (if t.adds.change_entries.length > 0 then [t.adds] else []) ++
  (if t.modifies.change_entries.length > 0 then [t.modifies] else [])

theorem compose_chain (t : pdr_chg_tracker_t) :
    ((pdr_chg_compose_step [] t.deletes).bind
      (fun rs => pdr_chg_compose_step rs t.adds)).bind
      (fun rs => pdr_chg_compose_step rs t.modifies) =
    some (pdr_chg_composed_records t) := by
  unfold pdr_chg_compose_step pdr_chg_composed_records PDR_CHG_EVENT_MAX_RECORDS
  by_cases h1 : t.deletes.change_entries.length > 0 <;>
    by_cases h2 : t.adds.change_entries.length > 0 <;>
      by_cases h3 : t.modifies.change_entries.length > 0 <;>
        simp [h1, h2, h3]

theorem tracker_has_changes_iff (ops : List pdr_chg_trk_op) :
    (pdr_chg_trk_exec_ops ops).has_changes = true ↔
      (pdr_chg_trk_exec_ops ops).deletes.change_entries.length +
      (pdr_chg_trk_exec_ops ops).adds.change_entries.length +
      (pdr_chg_trk_exec_ops ops).modifies.change_entries.length ≠ 0 := by
  unfold pdr_chg_trk_exec_ops
  suffices h : ∀ (l : List pdr_chg_trk_op) (t : pdr_chg_tracker_t),
      (t.has_changes = true ↔ t.deletes.change_entries.length +
        t.adds.change_entries.length + t.modifies.change_entries.length ≠ 0) →
      ((l.foldl pdr_chg_trk_exec t).has_changes = true ↔
        (l.foldl pdr_chg_trk_exec t).deletes.change_entries.length +
        (l.foldl pdr_chg_trk_exec t).adds.change_entries.length +
        (l.foldl pdr_chg_trk_exec t).modifies.change_entries.length ≠ 0) by
    exact h ops pdr_chg_tracker_init (by simp [pdr_chg_tracker_init])
  intro l
  induction l with
  | nil => intro t ht; exact ht
  | cons op rest ih =>
    intro t ht
    refine ih (pdr_chg_trk_exec t op) ?_
    cases op with
    | addE e =>
      by_cases h16 : t.adds.change_entries.length ≥ PDR_CHG_EVENT_MAX_ENTRIES
      · simpa [pdr_chg_trk_exec, pdr_chg_tracker_record_add, h16] using ht
      · simp [pdr_chg_trk_exec, pdr_chg_tracker_record_add, h16]
    | delE e =>
      by_cases h16 : t.deletes.change_entries.length ≥ PDR_CHG_EVENT_MAX_ENTRIES
      · simpa [pdr_chg_trk_exec, pdr_chg_tracker_record_delete, h16] using ht
      · simp [pdr_chg_trk_exec, pdr_chg_tracker_record_delete, h16]
    | modE e =>
      by_cases h16 : t.modifies.change_entries.length ≥ PDR_CHG_EVENT_MAX_ENTRIES
      · simpa [pdr_chg_trk_exec, pdr_chg_tracker_record_modify, h16] using ht
      · simp [pdr_chg_trk_exec, pdr_chg_tracker_record_modify, h16]
    | clear => simp [pdr_chg_trk_exec, pdr_chg_tracker_init]

theorem composed_records_ne_nil (t : pdr_chg_tracker_t)
    (h : t.deletes.change_entries.length + t.adds.change_entries.length +
      t.modifies.change_entries.length ≠ 0) :
    pdr_chg_composed_records t ≠ [] := by
  unfold pdr_chg_composed_records
  by_cases h1 : t.deletes.change_entries.length > 0 <;>
    by_cases h2 : t.adds.change_entries.length > 0 <;>
      by_cases h3 : t.modifies.change_entries.length > 0 <;>
        (simp [h1, h2, h3]; try omega)

/-- C8 confirmed: for every tracker state reachable through the tracker
API, `buildEvent(format, maxSize)` yields the refreshEntireRepository event
with zero change records exactly when nothing is pending or
`maxSize > 0` and the encoded size of the composed delta event exceeds
`maxSize`; otherwise it yields the event in the requested format whose
records are the non-empty pending records in delete → add → modify order. -/
theorem build_event_size_fallback (ops : List pdr_chg_trk_op)
    (format max_msg_size : Nat) :
    (pdr_chg_tracker_build_event (pdr_chg_trk_exec_ops ops) format max_msg_size =
        ⟨PDR_CHG_FORMAT_REFRESH_ENTIRE, []⟩ ↔
      ((pdr_chg_trk_exec_ops ops).deletes.change_entries.length +
        (pdr_chg_trk_exec_ops ops).adds.change_entries.length +
        (pdr_chg_trk_exec_ops ops).modifies.change_entries.length = 0 ∨
        (max_msg_size > 0 ∧ calc_encoded_size
          ⟨format, pdr_chg_composed_records (pdr_chg_trk_exec_ops ops)⟩ >
            max_msg_size))) ∧
    (¬ ((pdr_chg_trk_exec_ops ops).deletes.change_entries.length +
        (pdr_chg_trk_exec_ops ops).adds.change_entries.length +
        (pdr_chg_trk_exec_ops ops).modifies.change_entries.length = 0 ∨
        (max_msg_size > 0 ∧ calc_encoded_size
          ⟨format, pdr_chg_composed_records (pdr_chg_trk_exec_ops ops)⟩ >
            max_msg_size)) →
      pdr_chg_tracker_build_event (pdr_chg_trk_exec_ops ops) format max_msg_size =
        ⟨format, pdr_chg_composed_records (pdr_chg_trk_exec_ops ops)⟩) := by
  have hinv := tracker_has_changes_iff ops
  set t := pdr_chg_trk_exec_ops ops with hT
  by_cases hch : t.has_changes = true
  · have htot : t.deletes.change_entries.length + t.adds.change_entries.length +
        t.modifies.change_entries.length ≠ 0 := hinv.1 hch
    unfold pdr_chg_tracker_build_event
    rw [if_neg (by simp [hch])]
    rw [compose_chain t]
    dsimp only
    by_cases hsz : max_msg_size > 0 ∧
        calc_encoded_size ⟨format, pdr_chg_composed_records t⟩ > max_msg_size
    · rw [if_pos hsz]
      constructor
      · exact ⟨fun _ => Or.inr hsz, fun _ => rfl⟩
      · intro hno
        exact absurd (Or.inr hsz) hno
    · rw [if_neg hsz]
      constructor
      · constructor
        · intro heq
          have : pdr_chg_composed_records t = [] := congrArg pdr_chg_event_t.change_records heq
          exact absurd this (composed_records_ne_nil t htot)
        · intro hor
          rcases hor with h0 | h1
          · exact absurd h0 htot
          · exact absurd h1 hsz
      · intro _
        rfl
  · have hch2 : t.has_changes = false := by
      cases h : t.has_changes
      · rfl
      · exact absurd h hch
    have htot : t.deletes.change_entries.length + t.adds.change_entries.length +
        t.modifies.change_entries.length = 0 := by
      by_contra hne
      exact hch (hinv.2 hne)
    unfold pdr_chg_tracker_build_event
    rw [if_pos (by simp [hch2])]
    constructor
    · exact ⟨fun _ => Or.inl htot, fun _ => rfl⟩
    · intro hno
      exact absurd (Or.inl htot) hno

/-- C8 witness: the theorem applied to a tracker holding two pending
deletes and one pending add, with `format = formatIsPDRHandles` and a
64-byte limit (the 18-byte delta fits, so no fallback). -/
theorem build_event_size_fallback_witness :
    (pdr_chg_tracker_build_event
        (pdr_chg_trk_exec_ops [pdr_chg_trk_op.delE 10, pdr_chg_trk_op.delE 11,
          pdr_chg_trk_op.addE 30]) 2 64 =
        ⟨PDR_CHG_FORMAT_REFRESH_ENTIRE, []⟩ ↔
      ((pdr_chg_trk_exec_ops [pdr_chg_trk_op.delE 10, pdr_chg_trk_op.delE 11,
          pdr_chg_trk_op.addE 30]).deletes.change_entries.length +
        (pdr_chg_trk_exec_ops [pdr_chg_trk_op.delE 10, pdr_chg_trk_op.delE 11,
          pdr_chg_trk_op.addE 30]).adds.change_entries.length +
        (pdr_chg_trk_exec_ops [pdr_chg_trk_op.delE 10, pdr_chg_trk_op.delE 11,
          pdr_chg_trk_op.addE 30]).modifies.change_entries.length = 0 ∨
        (64 > 0 ∧ calc_encoded_size
          ⟨2, pdr_chg_composed_records (pdr_chg_trk_exec_ops
            [pdr_chg_trk_op.delE 10, pdr_chg_trk_op.delE 11,
              pdr_chg_trk_op.addE 30])⟩ > 64))) ∧
    (¬ ((pdr_chg_trk_exec_ops [pdr_chg_trk_op.delE 10, pdr_chg_trk_op.delE 11,
          pdr_chg_trk_op.addE 30]).deletes.change_entries.length +
        (pdr_chg_trk_exec_ops [pdr_chg_trk_op.delE 10, pdr_chg_trk_op.delE 11,
          pdr_chg_trk_op.addE 30]).adds.change_entries.length +
        (pdr_chg_trk_exec_ops [pdr_chg_trk_op.delE 10, pdr_chg_trk_op.delE 11,
          pdr_chg_trk_op.addE 30]).modifies.change_entries.length = 0 ∨
        (64 > 0 ∧ calc_encoded_size
          ⟨2, pdr_chg_composed_records (pdr_chg_trk_exec_ops
            [pdr_chg_trk_op.delE 10, pdr_chg_trk_op.delE 11,
              pdr_chg_trk_op.addE 30])⟩ > 64)) →
      pdr_chg_tracker_build_event
        (pdr_chg_trk_exec_ops [pdr_chg_trk_op.delE 10, pdr_chg_trk_op.delE 11,
          pdr_chg_trk_op.addE 30]) 2 64 =
        ⟨2, pdr_chg_composed_records (pdr_chg_trk_exec_ops
          [pdr_chg_trk_op.delE 10, pdr_chg_trk_op.delE 11,
            pdr_chg_trk_op.addE 30])⟩) :=
  build_event_size_fallback [pdr_chg_trk_op.delE 10, pdr_chg_trk_op.delE 11,
    pdr_chg_trk_op.addE 30] 2 64
